import Mathlib

/-!
Verification of the execution core of the py-evm repository against its
natural-language specification.

The Python source is shallowly embedded: each Python method becomes a Lean
function over explicit state values.  Python's unbounded integers are
modelled by Nat (with explicit hypotheses wherever Python subtraction
could go negative), byte strings by List Nat, and the Merkle-Patricia
tries by the finite maps they denote (association lists keyed by the
plain address or slot; the keccak hashing of trie keys is injective for
the purposes of the map abstraction).  Raised Python exceptions become
Except results that carry the state at the moment of the raise.
-/

/-- Byte strings (Python bytes) as lists of byte values. -/
abbrev Bytes := List Nat

/-- 20-byte account addresses, kept as byte lists. -/
abbrev Addr := List Nat

/-- Association-list lookup (the finite-map denotation of a trie). -/
def alget {α β : Type} [DecidableEq α] (l : List (α × β)) (k : α) : Option β :=
  match l with
  | [] => none
  | (k0, v0) :: rest => if k = k0 then some v0 else alget rest k

/-- Association-list update: replace the first binding of the key in place,
or append a fresh binding (this is also Python dict insertion order). -/
def alset {α β : Type} [DecidableEq α] (l : List (α × β)) (k : α) (v : β) :
    List (α × β) :=
  match l with
  | [] => [(k, v)]
  | (k0, v0) :: rest =>
    if k = k0 then (k0, v) :: rest else (k0, v0) :: alset rest k v

/-- Association-list deletion (trie delete; removing an absent key is a no-op). -/
def aldel {α β : Type} [DecidableEq α] (l : List (α × β)) (k : α) :
    List (α × β) :=
  match l with
  | [] => []
  | (k0, v0) :: rest => if k = k0 then rest else (k0, v0) :: aldel rest k

namespace EvmState

/-- Python bytes.strip(b'\x00') on the left: drop leading zero bytes. -/
def dropZeros : Bytes → Bytes
  | [] => []
  | b :: rest => if b = 0 then dropZeros rest else b :: rest

/-- Python value.strip(b'\x00'): drop zero bytes from both ends. -/
def stripZeros (b : Bytes) : Bytes :=
  (dropZeros (dropZeros b.reverse).reverse)

/-- An account record, from evm/rlp/accounts.py (not in src).
Modelled from the spec: Account is (nonce, balance, storage_root,
code_hash) with defaults nonce = 0, balance = 0, empty storage and
code_hash = KECCAK(""); the storage trie is represented here by the
finite map it denotes. -/
structure Account where
  nonce : Nat
  balance : Nat
  storage : List (Bytes × Bytes)
  codeHash : Bytes
  deriving DecidableEq, Repr

/-- The world state of src/evm/state.py: the state trie (a map from
address to account record) plus the backing key-value store holding
contract code keyed by code hash. -/
structure State where
  accounts : List (Addr × Account)
  db : List (Bytes × Bytes)
  deriving DecidableEq, Repr

variable (keccak : Bytes → Bytes)

/-- EMPTY_SHA3, the hash of the empty byte string. -/
def emptySha3 : Bytes := keccak []

/-- The default Account() record produced for addresses absent from the
state trie. -/
def defaultAccount : Account :=
  { nonce := 0, balance := 0, storage := [], codeHash := emptySha3 keccak }

/-- State._get_account: decode the account at the address, or a fresh
default record when the address is absent from the trie. -/
def State.getAccount (σ : State) (address : Addr) : Account :=
  match alget σ.accounts address with
  | some account => account
  | none => defaultAccount keccak

/-- State.set_storage: write a slot of the account's storage trie.  A
value that strips to all-zero bytes deletes the slot instead of storing
an explicit zero. -/
def State.set_storage (σ : State) (address : Addr) (slot : Bytes)
    (value : Bytes) : State :=
  let account := σ.getAccount keccak address
  let storage :=
    if stripZeros value ≠ [] then alset account.storage slot value
    else aldel account.storage slot
  { σ with accounts :=
      alset σ.accounts address { account with storage := storage } }

/-- State.get_storage: read a slot, returning empty bytes when the slot
is absent.  The method performs no writes, so it returns the state
unchanged. -/
def State.get_storage (σ : State) (address : Addr) (slot : Bytes) :
    Bytes × State :=
  let account := σ.getAccount keccak address
  match alget account.storage slot with
  | some raw => (raw, σ)
  | none => ([], σ)

/-- State.set_balance. -/
def State.set_balance (σ : State) (address : Addr) (balance : Nat) : State :=
  let account := σ.getAccount keccak address
  { σ with accounts :=
      alset σ.accounts address { account with balance := balance } }

/-- State.get_balance: reads perform no writes. -/
def State.get_balance (σ : State) (address : Addr) : Nat × State :=
  ((σ.getAccount keccak address).balance, σ)

/-- State.set_nonce. -/
def State.set_nonce (σ : State) (address : Addr) (nonce : Nat) : State :=
  let account := σ.getAccount keccak address
  { σ with accounts :=
      alset σ.accounts address { account with nonce := nonce } }

/-- State.get_nonce: reads perform no writes. -/
def State.get_nonce (σ : State) (address : Addr) : Nat × State :=
  ((σ.getAccount keccak address).nonce, σ)

/-- State.set_code: refuses to overwrite an account whose code hash is
not the empty-code hash; the ValueError carries the (unmodified) state. -/
def State.set_code (σ : State) (address : Addr) (code : Bytes) :
    Except (String × State) State :=
  let account := σ.getAccount keccak address
  if account.codeHash ≠ emptySha3 keccak then
    .error ("Should not be overwriting account code", σ)
  else
    .ok { σ with
          accounts := alset σ.accounts address
            { account with codeHash := keccak code },
          db := alset σ.db (keccak code) code }

/-- State.get_code: look the code hash up in the key-value store,
returning empty bytes on a KeyError; no writes are performed. -/
def State.get_code (σ : State) (address : Addr) : Bytes × State :=
  let account := σ.getAccount keccak address
  match alget σ.db account.codeHash with
  | some code => (code, σ)
  | none => ([], σ)

/-- State.delete_account: remove the address from the state trie. -/
def State.delete_account (σ : State) (address : Addr) : State :=
  { σ with accounts := aldel σ.accounts address }

/-- State.account_exists. -/
def State.account_exists (σ : State) (address : Addr) : Bool :=
  (alget σ.accounts address).isSome

/-- State.increment_nonce. -/
def State.increment_nonce (σ : State) (address : Addr) : State :=
  σ.set_nonce keccak address ((σ.get_nonce keccak address).1 + 1)

end EvmState

namespace EvmOld

/-- Modelled from the spec: the immutable Message descriptor of a
call/create frame (evm/vm/message.py is not in src).  storage_address is
create_address when set, else the call target; is_create holds exactly
when a create_address was assigned. -/
structure Msg where
  gas : Nat
  toAddress : Addr
  sender : Addr
  origin : Addr
  value : Nat
  depth : Nat
  createAddress : Option Addr
  deriving DecidableEq, Repr

/-- Message.storage_address (the source field named to is spelled
toAddress here, since that spelling is reserved in Lean). -/
def Msg.storageAddress (m : Msg) : Addr := m.createAddress.getD m.toAddress

/-- VM error kinds that the interpreter records on a frame. -/
inductive FrameError
  | outOfGas
  | invalidOpcode
  | otherError
  deriving DecidableEq, Repr

/-- The slice of the old Computation object that the message and create
sub-protocols observe: the recorded error, the output bytes and the gas
meter's remaining gas. -/
structure Comp where
  error : Option FrameError
  output : Bytes
  gasRemaining : Nat
  deriving DecidableEq, Repr

/-- Python exceptions raised (and not caught) inside the frame
functions; each carries the world state at the moment of the raise. -/
inductive PyErr
  | stackDepthLimit
  | insufficientFunds
  | valueError
  deriving DecidableEq, Repr

/-- Modelled from the spec: the 200-per-byte contract code deposit cost
(constants.py is not in src). -/
def GAS_CODEDEPOSIT : Nat := 200

/-- _apply_message from src/evm/vm/evm.py.  The interpreter
evm.apply_computation is passed as a function parameter: it catches all
VM errors internally, recording them on the returned computation.  The
snapshot taken on entry is the state value itself; revert restores it. -/
def applyMessage (keccak : Bytes → Bytes)
    (applyComputation : Msg → EvmState.State → Comp × EvmState.State)
    (σ : EvmState.State) (message : Msg) :
    Except (PyErr × EvmState.State) (Comp × EvmState.State) :=
  let snapshot := σ
  if message.depth ≥ 1024 then .error (.stackDepthLimit, σ)
  else
    match (if message.value ≠ 0 then
             let senderBalance := (σ.get_balance keccak message.sender).1
             if senderBalance < message.value then
               Except.error (PyErr.insufficientFunds, σ)
             else
               let σ1 := σ.set_balance keccak message.sender
                 (senderBalance - message.value)
               let recipientBalance :=
                 (σ1.get_balance keccak message.storageAddress).1
               Except.ok (σ1.set_balance keccak message.storageAddress
                 (recipientBalance + message.value))
           else Except.ok σ) with
    | .error e => .error e
    | .ok σ2 =>
      let r := applyComputation message σ2
      if r.1.error.isSome then .ok (r.1, snapshot) else .ok (r.1, r.2)

/-- _apply_create_message from src/evm/vm/evm.py.  Note the creator
nonce increment between the inner message application and the error
check: it is applied after the inner frame has already reverted, and the
error path returns without reverting the outer snapshot. -/
def applyCreateMessage (keccak : Bytes → Bytes)
    (applyComputation : Msg → EvmState.State → Comp × EvmState.State)
    (σ : EvmState.State) (message : Msg) :
    Except (PyErr × EvmState.State) (Comp × EvmState.State) :=
  let snapshot := σ
  match applyMessage keccak applyComputation σ message with
  | .error e => .error e
  | .ok (computation, σ1) =>
    let σ2 := if message.sender ≠ message.origin
              then σ1.increment_nonce keccak message.sender
              else σ1
    if computation.error.isSome then .ok (computation, σ2)
    else
      let contractCode := computation.output
      if contractCode ≠ [] then
        let contractCodeGasCost := contractCode.length * GAS_CODEDEPOSIT
        if contractCodeGasCost > computation.gasRemaining then
          .ok ({ computation with
                 error := some .outOfGas, gasRemaining := 0 }, snapshot)
        else
          let computation1 := { computation with
            gasRemaining := computation.gasRemaining - contractCodeGasCost }
          match σ2.set_code keccak message.storageAddress contractCode with
          | .error (_, σe) => .error (.valueError, σe)
          | .ok σ3 => .ok (computation1, σ3)
      else .ok (computation, σ2)

end EvmOld

/-- Python dict built by inserting the pairs of the list left to right:
a later binding of a key overwrites the value in place (keeping the
first occurrence's position), a fresh key is appended. -/
def pyDict {α β : Type} [DecidableEq α] (l : List (α × β)) : List (α × β) :=
  l.foldl (fun acc kv => alset acc kv.1 kv.2) []

namespace EvmC

/-- The two flags carried by every VMError class (evm/exceptions.py is
not in src).  Modelled from the spec: burning errors consume all gas and
erase return data; in the forks in scope all VM errors burn. -/
structure VMError where
  burnsGas : Bool
  erasesReturnData : Bool
  deriving DecidableEq, Repr

/-- The slice of the new-era Message observed by the computation
getters.  Modelled from the spec: is_create holds when the message
targets the create sentinel or carries a create_address. -/
structure Msg where
  gas : Nat
  isCreate : Bool
  deriving DecidableEq, Repr

/-- One log entry as stored by BaseComputation._log_entries: the
per-transaction counter followed by account, topics and data. -/
structure LogEntry where
  counter : Nat
  account : Addr
  topics : List Nat
  data : Bytes
  deriving DecidableEq, Repr

/-- The own (non-child) fields of a BaseComputation frame: message, gas
meter, recorded error, private output buffer, return-data buffer, log
entries, accounts registered for deletion, and the memory buffer. -/
structure CompCore where
  msg : Msg
  gasRemaining : Nat
  gasRefunded : Nat
  error : Option VMError
  outputRaw : Bytes
  returnData : Bytes
  logEntries : List LogEntry
  accountsToDelete : List (Addr × Addr)
  memory : Bytes
  deriving DecidableEq, Repr

/-- A BaseComputation frame together with its ordered children. -/
inductive Computation where
  | mk (core : CompCore) (children : List Computation)

/-- The frame's own fields. -/
def Computation.core : Computation → CompCore
  | .mk core _ => core

/-- The ordered child computations. -/
def Computation.children : Computation → List Computation
  | .mk _ children => children

/-- BaseComputation.is_error. -/
def Computation.isError (c : Computation) : Bool := c.core.error.isSome

/-- BaseComputation.should_burn_gas. -/
def Computation.shouldBurnGas (c : Computation) : Bool :=
  match c.core.error with
  | some e => e.burnsGas
  | none => false

/-- BaseComputation.should_erase_return_data. -/
def Computation.shouldEraseReturnData (c : Computation) : Bool :=
  match c.core.error with
  | some e => e.erasesReturnData
  | none => false

/-- The BaseComputation.output property: empty once an
erase-return-data error is recorded, else the private buffer. -/
def Computation.output (c : Computation) : Bytes :=
  if c.shouldEraseReturnData then [] else c.core.outputRaw

/-- BaseComputation.add_child_computation: set the parent's return-data
buffer from the child and append the child to the children list. -/
def Computation.addChildComputation (parent child : Computation) :
    Computation :=
  let returnData :=
    if child.isError then
      if child.core.msg.isCreate then child.output
      else if child.shouldBurnGas then []
      else child.output
    else
      if child.core.msg.isCreate then []
      else child.output
  .mk { parent.core with returnData := returnData }
    (parent.children ++ [child])

/-- Modelled from the spec: the per-transaction context carrying the
monotonically increasing log counter (transaction_context.py is not in
src). -/
structure TransactionContext where
  logCounter : Nat
  deriving DecidableEq, Repr

/-- TransactionContext.get_next_log_counter: return the counter and
advance it. -/
def TransactionContext.getNextLogCounter (ctx : TransactionContext) :
    Nat × TransactionContext :=
  (ctx.logCounter, { logCounter := ctx.logCounter + 1 })

/-- BaseComputation.add_log_entry: append the entry stamped with the
next per-transaction counter. -/
def Computation.addLogEntry (c : Computation) (ctx : TransactionContext)
    (account : Addr) (topics : List Nat) (data : Bytes) :
    Computation × TransactionContext :=
  let r := ctx.getNextLogCounter
  (.mk { c.core with logEntries :=
          c.core.logEntries ++ [⟨r.1, account, topics, data⟩] } c.children,
   r.2)

/-- BaseComputation.get_accounts_for_deletion: empty when errored, else
the Python dict of the chain of the frame's own registrations followed
by each child's (already deduplicated) result. -/
def Computation.getAccountsForDeletion : Computation → List (Addr × Addr)
  | .mk core children =>
    if core.error.isSome then []
    else pyDict (core.accountsToDelete ++
      (children.attach.map
        (fun c => Computation.getAccountsForDeletion c.1)).flatten)
termination_by c => sizeOf c
decreasing_by
  simp only [Computation.mk.sizeOf_spec]
  have h := List.sizeOf_lt_of_mem c.2
  omega

/-- Comparison of log entries by the per-transaction counter.  Python
compares the full tuples lexicographically, but counters are unique
within a transaction, so the tie-breaking components never decide. -/
def logEntryLe (a b : LogEntry) : Bool := decide (a.counter ≤ b.counter)

/-- BaseComputation._get_log_entries: empty when errored, else the
sorted merge of the frame's own entries with the children's. -/
def Computation.getLogEntriesInternal : Computation → List LogEntry
  | .mk core children =>
    if core.error.isSome then []
    else (core.logEntries ++
      (children.attach.map
        (fun c => Computation.getLogEntriesInternal c.1)).flatten).mergeSort
        logEntryLe
termination_by c => sizeOf c
decreasing_by
  simp only [Computation.mk.sizeOf_spec]
  have h := List.sizeOf_lt_of_mem c.2
  omega

/-- BaseComputation.get_log_entries: the sorted entries with the
counter stripped. -/
def Computation.getLogEntries (c : Computation) :
    List (Addr × List Nat × Bytes) :=
  c.getLogEntriesInternal.map (fun l => (l.account, l.topics, l.data))

/-- BaseComputation.get_gas_refund: zero when errored, else own
refund counter plus the children's recursive refunds. -/
def Computation.getGasRefund : Computation → Nat
  | .mk core children =>
    if core.error.isSome then 0
    else core.gasRefunded +
      (children.attach.map (fun c => Computation.getGasRefund c.1)).sum
termination_by c => sizeOf c
decreasing_by
  simp only [Computation.mk.sizeOf_spec]
  have h := List.sizeOf_lt_of_mem c.2
  omega

/-- BaseComputation.get_gas_used. -/
def Computation.getGasUsed (c : Computation) : Nat :=
  if c.shouldBurnGas then c.core.msg.gas
  else max 0 (c.core.msg.gas - c.core.gasRemaining)

/-- BaseComputation.get_gas_remaining. -/
def Computation.getGasRemaining (c : Computation) : Nat :=
  if c.shouldBurnGas then 0 else c.core.gasRemaining

/-- GasMeter.refund_gas applied to the frame's own meter. -/
def Computation.refundGas (c : Computation) (amount : Nat) : Computation :=
  .mk { c.core with gasRefunded := c.core.gasRefunded + amount } c.children

/-- Plain unsorted collector of the log entries of all non-errored
subtrees, own entries first, used to state what the sorted getter must
be a permutation of. -/
def Computation.collectLogs : Computation → List LogEntry
  | .mk core children =>
    if core.error.isSome then []
    else core.logEntries ++
      (children.attach.map (fun c => Computation.collectLogs c.1)).flatten
termination_by c => sizeOf c
decreasing_by
  simp only [Computation.mk.sizeOf_spec]
  have h := List.sizeOf_lt_of_mem c.2
  omega

/-- Plain undeduplicated pre-order collector of the deletion
registrations of all non-errored subtrees, own registrations first. -/
def Computation.collectDeletions : Computation → List (Addr × Addr)
  | .mk core children =>
    if core.error.isSome then []
    else core.accountsToDelete ++
      (children.attach.map (fun c => Computation.collectDeletions c.1)).flatten
termination_by c => sizeOf c
decreasing_by
  simp only [Computation.mk.sizeOf_spec]
  have h := List.sizeOf_lt_of_mem c.2
  omega

/-- The post-order flattening that the claim describes: each child's
deduplicated result first, then the frame's own registrations, fed into
the same dict deduplication. -/
def Computation.postOrderDeletions : Computation → List (Addr × Addr)
  | .mk core children =>
    if core.error.isSome then []
    else pyDict ((children.attach.map
      (fun c => Computation.postOrderDeletions c.1)).flatten ++
      core.accountsToDelete)
termination_by c => sizeOf c
decreasing_by
  simp only [Computation.mk.sizeOf_spec]
  have h := List.sizeOf_lt_of_mem c.2
  omega

/-- ceil32 from evm/utils/numeric.py (not in src): round up to the next
multiple of 32. -/
def ceil32 (n : Nat) : Nat := if n % 32 = 0 then n else n + 32 - n % 32

/-- GAS_MEMORY = 3 per word (constants.py is not in src; value from the
spec). -/
def GAS_MEMORY : Nat := 3

/-- GAS_MEMORY_QUADRATIC_DENOMINATOR = 512 (value from the spec). -/
def GAS_MEMORY_QUADRATIC_DENOMINATOR : Nat := 512

/-- memory_gas_cost from src/evm/vm/computation.py. -/
def memoryGasCost (sizeInBytes : Nat) : Nat :=
  let sizeInWords := ceil32 sizeInBytes / 32
  let linearCost := sizeInWords * GAS_MEMORY
  let quadraticCost := sizeInWords ^ 2 / GAS_MEMORY_QUADRATIC_DENOMINATOR
  linearCost + quadraticCost

/-- Modelled from the spec: GasMeter.consume_gas fails with OutOfGas and
zeroes the remaining gas when the charge exceeds it, else subtracts
(gas_meter.py is not in src). -/
def consumeGasCore (core : CompCore) (amount : Nat) :
    Except (String × CompCore) CompCore :=
  if amount > core.gasRemaining then
    .error ("OutOfGas", { core with gasRemaining := 0 })
  else .ok { core with gasRemaining := core.gasRemaining - amount }

/-- Modelled from the spec: Memory.extend grows the buffer with zero
bytes to ceil32(start + size), a no-op when the buffer is already that
large or the size is zero (memory.py is not in src). -/
def memExtend (memory : Bytes) (startPosition size : Nat) : Bytes :=
  if size = 0 then memory
  else
    let newSize := ceil32 (startPosition + size)
    if newSize ≤ memory.length then memory
    else memory ++ List.replicate (newSize - memory.length) 0

/-- BaseComputation.extend_memory from src/evm/vm/computation.py:
validate the u256 range of both arguments, charge the incremental
memory cost when positive, and extend the buffer — all skipped when
size is zero. -/
def Computation.extendMemory (c : Computation)
    (startPosition size : Nat) : Except (String × Computation) Computation :=
  if startPosition ≥ 2 ^ 256 ∨ size ≥ 2 ^ 256 then
    .error ("ValidationError", c)
  else
    let core := c.core
    let beforeSize := ceil32 core.memory.length
    let afterSize := ceil32 (startPosition + size)
    let beforeCost := memoryGasCost beforeSize
    let afterCost := memoryGasCost afterSize
    if size ≠ 0 then
      if beforeCost < afterCost then
        match consumeGasCore core (afterCost - beforeCost) with
        | .error e => .error (e.1, .mk e.2 c.children)
        | .ok core1 =>
          .ok (.mk { core1 with
            memory := memExtend core1.memory startPosition size } c.children)
      else
        .ok (.mk { core with
          memory := memExtend core.memory startPosition size } c.children)
    else .ok c

/-- The claim's description of the parent return-data buffer after a
child completes: for a create child, the child's output on failure and
empty on success; for a call child, the child's output except empty
when the child's error burns gas. -/
def returnDataSpec (child : Computation) : Bytes :=
  if child.core.msg.isCreate then
    if child.isError then child.output else []
  else
    if child.shouldBurnGas then [] else child.output

/-- A sequence of add_log_entry emissions on one frame, threading the
per-transaction context through each call. -/
def Computation.addLogEntries (c : Computation) (ctx : TransactionContext)
    (emissions : List (Addr × List Nat × Bytes)) :
    Computation × TransactionContext :=
  emissions.foldl (fun p e => p.1.addLogEntry p.2 e.1 e.2.1 e.2.2) (c, ctx)

end EvmC

namespace Frontier

/-- REFUND_SELFDESTRUCT (frontier constants.py is not in src; value from
the spec scenario S5). -/
def REFUND_SELFDESTRUCT : Nat := 24000

/-- The transaction fields read by the post-computation phase. -/
structure TxInfo where
  gas : Nat
  gasPrice : Nat
  sender : Addr
  coinbase : Addr

/-- The balance view of the account state, as touched by
state_db.delta_balance / set_balance (evm/db/state.py is not in src;
modelled from the spec: credit adds to the balance, deletion zeroes
it). -/
abbrev Balances := Addr → Nat

/-- state_db.delta_balance with a non-negative delta. -/
def deltaBalance (b : Balances) (a : Addr) (amount : Nat) : Balances :=
  fun x => if x = a then b x + amount else b x

/-- state_db.set_balance. -/
def setBalance (b : Balances) (a : Addr) (v : Nat) : Balances :=
  fun x => if x = a then v else b x

/-- What the post-computation phase produces: the balances after fee
settlement and self-destruct processing, and the realised gas numbers. -/
structure PostResult where
  balances : Balances
  gasRemaining : Nat
  gasRefund : Nat
  gasUsed : Nat

/-- The post-computation phase of _execute_frontier_transaction
(src/evm/vm/forks/frontier/__init__.py, after the message has been
applied): self-destruct refunds, the realised gas refund, sender refund
credit, coinbase fee credit, and self-destruct account clearing
(delete_account leaves the deleted account with balance zero, which
set_balance already established). -/
def executeTransactionPost (tx : TxInfo) (computation : EvmC.Computation)
    (balances : Balances) : PostResult :=
  let numDeletions := computation.getAccountsForDeletion.length
  let computation1 :=
    if numDeletions ≠ 0 then
      computation.refundGas (REFUND_SELFDESTRUCT * numDeletions)
    else computation
  let gasRemaining := computation1.getGasRemaining
  let gasRefunded := computation1.getGasRefund
  let gasUsed := tx.gas - gasRemaining
  let gasRefund := min gasRefunded (gasUsed / 2)
  let gasRefundAmount := (gasRefund + gasRemaining) * tx.gasPrice
  let b1 :=
    if gasRefundAmount ≠ 0 then deltaBalance balances tx.sender gasRefundAmount
    else balances
  let transactionFee := (tx.gas - gasRemaining - gasRefund) * tx.gasPrice
  let b2 := deltaBalance b1 tx.coinbase transactionFee
  let b3 := computation1.getAccountsForDeletion.foldl
    (fun b p => setBalance b p.1 0) b2
  { balances := b3, gasRemaining := gasRemaining, gasRefund := gasRefund,
    gasUsed := gasUsed }

end Frontier

namespace Precompile

/-- A dynamically typed Python value: the operand of ceil32 in
precompiled_sha256 is the message data itself, a bytes object. -/
inductive PyVal
  | int (n : Int)
  | bytes (bs : Bytes)
  deriving DecidableEq, Repr

/-- GAS_SHA256 = 60 (constants.py is not in src; value from the spec). -/
def GAS_SHA256 : Int := 60

/-- GAS_SHA256WORD = 12 (value from the spec). -/
def GAS_SHA256WORD : Int := 12

/-- ceil32 from evm/utils/numeric.py (not in src), over dynamically
typed values: value if value % 32 == 0 else value + 32 - (value % 32).
Taking a bytes value modulo an integer raises TypeError (Python bytes
support % only as format strings; message data is plain bytes, and even
a format-specifier payload would raise on the subsequent bytes + int
addition). -/
def ceil32Py : PyVal → Except String PyVal
  | .int n => .ok (.int (if n % 32 = 0 then n else n + 32 - n % 32))
  | .bytes _ =>
    .error "TypeError: unsupported operand types for %: bytes and int"

/-- Python floor division, defined only on integers. -/
def floorDivPy : PyVal → Int → Except String PyVal
  | .int n, m => .ok (.int (Int.fdiv n m))
  | .bytes _, _ =>
    .error "TypeError: unsupported operand types for //: bytes and int"

/-- The slice of the computation observed by the SHA256 precompile. -/
structure Sha256Comp where
  data : Bytes
  gasRemaining : Nat
  output : Bytes
  deriving DecidableEq, Repr

/-- gas_fee = GAS_SHA256 + word_count * GAS_SHA256WORD over a dynamic
word count (int * int and int + int only). -/
def gasFeePy : PyVal → Except String Int
  | .int wordCount => .ok (GAS_SHA256 + wordCount * GAS_SHA256WORD)
  | .bytes _ =>
    .error "TypeError: unsupported operand types for *: bytes and int"

/-- Modelled from the spec: GasMeter.consume_gas on the precompile
frame (gas_meter.py is not in src). -/
def consumeGasSha (c : Sha256Comp) (amount : Int) :
    Except String Sha256Comp :=
  if amount > (c.gasRemaining : Int) then .error "OutOfGas"
  else .ok { c with gasRemaining := (((c.gasRemaining : Int) - amount)).toNat }

/-- precompiled_sha256 from src/evm/precompile.py.  The word count is
computed as ceil32(computation.message.data) // 32 — ceil32 is applied
to the data bytes themselves, not to their length — after which the gas
fee is charged and the output set to the SHA256 digest.  The SHA256
primitive is an external interface and is passed as a parameter. -/
def precompiledSha256 (sha256 : Bytes → Bytes) (c : Sha256Comp) :
    Except String Sha256Comp := do
  let v ← ceil32Py (.bytes c.data)
  let wordCount ← floorDivPy v 32
  let gasFee ← gasFeePy wordCount
  let c1 ← consumeGasSha c gasFee
  pure { c1 with output := sha256 c.data }

end Precompile

namespace Logic

/-- GAS_SSET = 20000 (constants.py is not in src; value from the spec). -/
def GAS_SSET : Nat := 20000

/-- GAS_SRESET = 5000 (value from the spec). -/
def GAS_SRESET : Nat := 5000

/-- REFUND_SCLEAR = 15000 (value from the spec). -/
def REFUND_SCLEAR : Nat := 15000

/-- pad32 from evm/utils/padding.py (not in src): left-pad with zero
bytes to 32 bytes. -/
def pad32 (b : Bytes) : Bytes := List.replicate (32 - b.length) 0 ++ b

/-- The slice of the old computation observed by the SSTORE handler:
the word stack (as 32-byte strings), the gas meter and the message's
storage address. -/
structure SComp where
  stack : List Bytes
  gasRemaining : Nat
  gasRefunded : Nat
  storageAddress : Addr
  deriving DecidableEq, Repr

/-- VM errors the SSTORE handler can raise; they carry the computation
as mutated before the raise. -/
inductive SstoreError
  | outOfGas
  | insufficientStack
  deriving DecidableEq, Repr

/-- sstore from src/evm/logic/storage.py (Frontier/Homestead schedule):
pop slot and value, read the current value, charge GAS_SSET only for a
zero-to-nonzero write and GAS_SRESET otherwise, refund REFUND_SCLEAR
exactly for a nonzero-to-zero write, then store through
State.set_storage.  On OutOfGas the meter is zeroed (spec behaviour of
the missing gas_meter.py) and the error carries the mutated
computation. -/
def sstore (keccak : Bytes → Bytes) (σ : EvmState.State) (c : SComp) :
    Except (SstoreError × SComp) (SComp × EvmState.State) :=
  match c.stack with
  | slot :: value :: rest =>
    let paddedSlot := pad32 slot
    let currentValue := (σ.get_storage keccak c.storageAddress paddedSlot).1
    let isCurrentlyEmpty := EvmState.stripZeros currentValue = ([] : Bytes)
    let isGoingToBeEmpty := EvmState.stripZeros value = ([] : Bytes)
    let gasRefund :=
      if isCurrentlyEmpty then 0
      else if isGoingToBeEmpty then REFUND_SCLEAR
      else 0
    let gasCost :=
      if isCurrentlyEmpty ∧ isGoingToBeEmpty then GAS_SRESET
      else if isCurrentlyEmpty then GAS_SSET
      else if isGoingToBeEmpty then GAS_SRESET
      else GAS_SRESET
    if gasCost > c.gasRemaining then
      .error (.outOfGas, { c with stack := rest, gasRemaining := 0 })
    else
      let c1 := { c with
        stack := rest
        gasRemaining := c.gasRemaining - gasCost }
      let c2 :=
        if gasRefund ≠ 0 then
          { c1 with gasRefunded := c1.gasRefunded + gasRefund }
        else c1
      .ok (c2, σ.set_storage keccak c.storageAddress paddedSlot value)
  | _ => .error (.insufficientStack, c)

end Logic

namespace Fixtures

/-- A toy injective hash standing in for KECCAK256 in concrete
examples. -/
def keccak0 : Bytes → Bytes := fun b => 7 :: b

/-- An interpreter run that fails on its first opcode (an unassigned
byte): the dispatch loop records InvalidOpcode, burns the gas and
leaves the state untouched. -/
def execFail : EvmOld.Msg → EvmState.State → EvmOld.Comp × EvmState.State :=
  fun _ σ => (⟨some .invalidOpcode, [], 0⟩, σ)

/-- An interpreter run that succeeds after writing balance 77 to
account 0x04 (e.g. the fee-free part of a successful SSTORE-style
frame): the frame ends with no error and its state modification must
survive. -/
def execWrite : EvmOld.Msg → EvmState.State → EvmOld.Comp × EvmState.State :=
  fun _ σ => (⟨none, [], 5⟩, σ.set_balance keccak0 [4] 77)

/-- A world state holding one account at address 0x01. -/
def σ0 : EvmState.State :=
  { accounts := [([1],
      { nonce := 0, balance := 1000, storage := [], codeHash := [7] })],
    db := [] }

/-- A nested create message: the creating contract 0x01 is not the
transaction origin 0x02. -/
def createMsg : EvmOld.Msg :=
  { gas := 100, toAddress := [], sender := [1], origin := [2], value := 0,
    depth := 0, createAddress := some [3] }

/-- A blank new-era frame core. -/
def blankCore : EvmC.CompCore :=
  { msg := { gas := 0, isCreate := false }, gasRemaining := 0,
    gasRefunded := 0, error := none, outputRaw := [], returnData := [],
    logEntries := [], accountsToDelete := [], memory := [] }

/-- A burning, return-data-erasing VM error (every VM error of the
forks in scope). -/
def burnError : EvmC.VMError := { burnsGas := true, erasesReturnData := true }

/-- A frame registering 0x01 for deletion with one child registering
0x02. -/
def delTree : EvmC.Computation :=
  .mk { blankCore with accountsToDelete := [([1], [9])] }
    [.mk { blankCore with accountsToDelete := [([2], [8])] } []]

/-- A frame whose own log entry has counter 2 and whose child holds
counter 1. -/
def logTree : EvmC.Computation :=
  .mk { blankCore with logEntries := [⟨2, [1], [5], [20]⟩] }
    [.mk { blankCore with logEntries := [⟨1, [2], [6], [30]⟩] } []]

/-- A completed top-level computation: 50000 gas left of a 100000-gas
transaction, 100 gas refunded, one account registered for deletion. -/
def txComp : EvmC.Computation :=
  .mk { blankCore with
        msg := { gas := 79000, isCreate := false }
        gasRemaining := 50000
        gasRefunded := 100
        accountsToDelete := [([5], [6])] } []

/-- The matching transaction view. -/
def txInfo : Frontier.TxInfo :=
  { gas := 100000, gasPrice := 2, sender := [1], coinbase := [2] }

/-- Pre-settlement balances. -/
def balances0 : Frontier.Balances := fun a => if a = [1] then 1000000 else 0

/-- A frame with empty memory and 100 gas. -/
def memComp : EvmC.Computation := .mk { blankCore with gasRemaining := 100 } []

/-- An SSTORE computation about to write value 0x05 to slot 0x01. -/
def sstoreComp : Logic.SComp :=
  { stack := [[1], [5]], gasRemaining := 30000, gasRefunded := 0,
    storageAddress := [3] }

/-- The empty world state. -/
def σempty : EvmState.State := { accounts := [], db := [] }

/-- A frame that ended in a burning VM error while holding a log entry
and a deletion registration. -/
def errTree : EvmC.Computation :=
  .mk { blankCore with
        error := some burnError
        logEntries := [⟨0, [1], [], []⟩]
        accountsToDelete := [([1], [9])] } []

/-- A state whose account 0x01 already has code installed (its code
hash [7, 9] differs from the empty hash keccak0 [] = [7]). -/
def σwithCode : EvmState.State :=
  { accounts := [([1],
      { nonce := 0, balance := 0, storage := [], codeHash := [7, 9] })],
    db := [([7, 9], [9])] }

end Fixtures

/-! Helper lemmas about the association-list map operations. -/

theorem alget_alset_self {α β : Type} [DecidableEq α]
    (l : List (α × β)) (k : α) (v : β) : alget (alset l k v) k = some v := by
  induction l with
  | nil => simp [alset, alget]
  | cons hd tl ih =>
    obtain ⟨k0, v0⟩ := hd
    by_cases h : k = k0
    · simp [alset, alget, h]
    · simp [alset, alget, h, ih]

theorem alget_alset_ne {α β : Type} [DecidableEq α]
    (l : List (α × β)) (k k1 : α) (v : β) (h : k1 ≠ k) :
    alget (alset l k v) k1 = alget l k1 := by
  induction l with
  | nil => simp [alset, alget, h]
  | cons hd tl ih =>
    obtain ⟨k0, v0⟩ := hd
    by_cases h0 : k = k0
    · subst h0
      simp [alset, alget, h]
    · by_cases h1 : k1 = k0
      · simp [alset, alget, h0, h1]
      · simp [alset, alget, h0, h1, ih]

theorem alget_not_mem {α β : Type} [DecidableEq α]
    (l : List (α × β)) (k : α) (h : k ∉ l.map Prod.fst) :
    alget l k = none := by
  induction l with
  | nil => simp [alget]
  | cons hd tl ih =>
    obtain ⟨k0, v0⟩ := hd
    simp only [List.map_cons, List.mem_cons, not_or] at h
    simp [alget, h.1, ih h.2]

theorem alget_aldel_self {α β : Type} [DecidableEq α]
    (l : List (α × β)) (k : α) (hnd : (l.map Prod.fst).Nodup) :
    alget (aldel l k) k = none := by
  induction l with
  | nil => simp [aldel, alget]
  | cons hd tl ih =>
    obtain ⟨k0, v0⟩ := hd
    simp only [List.map_cons, List.nodup_cons] at hnd
    by_cases h : k = k0
    · subst h
      simp only [aldel, if_pos rfl]
      exact alget_not_mem tl k hnd.1
    · simp only [aldel, if_neg h]
      simp [alget, h, ih hnd.2]

/-! C9 and C10: the world-state store. -/

/-- C9: State.set_code fails with an error whenever the account's code
hash differs from the empty-code hash — leaving the account record and
the code store unchanged — so nonempty code can be installed at most
once per account and existing contract code is never silently
overwritten. -/
theorem C9_set_code_write_once
    (keccak : Bytes → Bytes) (σ : EvmState.State) (address : Addr)
    (code : Bytes) :
    ((σ.getAccount keccak address).codeHash ≠ EvmState.emptySha3 keccak →
      σ.set_code keccak address code =
        .error ("Should not be overwriting account code", σ))
  ∧ (∀ σ1, σ.set_code keccak address code = .ok σ1 →
      keccak code ≠ EvmState.emptySha3 keccak →
      ∀ code2, σ1.set_code keccak address code2 =
        .error ("Should not be overwriting account code", σ1)) := by
  constructor
  · intro h
    simp [EvmState.State.set_code, h]
  · intro σ1 hok hne code2
    by_cases h : (σ.getAccount keccak address).codeHash = EvmState.emptySha3 keccak
    · simp only [EvmState.State.set_code, h, ne_eq, not_true_eq_false,
        if_neg, ite_false, not_false_eq_true, Except.ok.injEq] at hok
      have hacct : (σ1.getAccount keccak address).codeHash = keccak code := by
        rw [← hok]
        simp [EvmState.State.getAccount, alget_alset_self]
      simp [EvmState.State.set_code, hacct, hne]
    · simp [EvmState.State.set_code, h] at hok

/-- C9 witness: on a state whose account 0x01 carries code hash [7, 9]
(distinct from the empty hash [7]) set_code refuses, and after a
successful installation of code [1] on the empty state a second
installation refuses. -/
theorem C9_set_code_write_once_witness :
    Fixtures.σwithCode.set_code Fixtures.keccak0 [1] [2] =
      .error ("Should not be overwriting account code", Fixtures.σwithCode) :=
  (C9_set_code_write_once Fixtures.keccak0 Fixtures.σwithCode [1] [2]).1
    (by decide)

/-- C10: every read of an address absent from the state trie returns a
default rather than failing — balance 0, nonce 0, empty code, empty
bytes for every storage slot — and the read neither creates the account
nor modifies the state. -/
theorem C10_absent_address_reads_default
    (keccak : Bytes → Bytes) (σ : EvmState.State) (address : Addr)
    (habs : alget σ.accounts address = none)
    (hdb : alget σ.db (EvmState.emptySha3 keccak) = none) :
    σ.get_balance keccak address = (0, σ)
  ∧ σ.get_nonce keccak address = (0, σ)
  ∧ σ.get_code keccak address = ([], σ)
  ∧ (∀ slot, σ.get_storage keccak address slot = ([], σ))
  ∧ σ.account_exists address = false := by
  have hacct : σ.getAccount keccak address = EvmState.defaultAccount keccak := by
    simp [EvmState.State.getAccount, habs]
  refine ⟨?_, ?_, ?_, ?_, ?_⟩
  · simp [EvmState.State.get_balance, hacct, EvmState.defaultAccount]
  · simp [EvmState.State.get_nonce, hacct, EvmState.defaultAccount]
  · simp [EvmState.State.get_code, hacct, EvmState.defaultAccount, hdb]
  · intro slot
    simp [EvmState.State.get_storage, hacct, EvmState.defaultAccount, alget]
  · simp [EvmState.State.account_exists, habs]

/-- C10 witness: reading address 0x01 on the empty state. -/
theorem C10_absent_address_reads_default_witness :
    Fixtures.σempty.get_balance Fixtures.keccak0 [1] = (0, Fixtures.σempty)
  ∧ Fixtures.σempty.account_exists [1] = false := by
  have h := C10_absent_address_reads_default Fixtures.keccak0 Fixtures.σempty
    [1] (by decide) (by decide)
  exact ⟨h.1, h.2.2.2.2⟩

/-! C4: return-data propagation from child to parent. -/

/-- C4: after applying a child message, the parent's return-data buffer
is the child's output when the child is a failed create frame, the
child's output when the child is a call frame except empty when the
child's error burns gas, and empty when the child is a successful
create frame; in every case the child is appended to the parent's
children list. -/
theorem C4_child_return_data (parent child : EvmC.Computation) :
    (parent.addChildComputation child).core.returnData =
      EvmC.returnDataSpec child
  ∧ (parent.addChildComputation child).children =
      parent.children ++ [child] := by
  constructor
  · by_cases herr : child.isError
    · have hburn : child.shouldBurnGas → child.isError := by
        simp [EvmC.Computation.shouldBurnGas, EvmC.Computation.isError]
        intro h
        cases he : child.core.error with
        | none => rw [he] at h; simp at h
        | some e => simp
      by_cases hcr : child.core.msg.isCreate
      · simp [EvmC.Computation.addChildComputation, EvmC.returnDataSpec,
          EvmC.Computation.core, herr, hcr]
      · by_cases hb : child.shouldBurnGas
        · simp [EvmC.Computation.addChildComputation, EvmC.returnDataSpec,
            EvmC.Computation.core, herr, hcr, hb]
        · simp [EvmC.Computation.addChildComputation, EvmC.returnDataSpec,
            EvmC.Computation.core, herr, hcr, hb]
    · have hb : child.shouldBurnGas = false := by
        simp only [EvmC.Computation.isError, Bool.not_eq_true] at herr
        unfold EvmC.Computation.shouldBurnGas
        cases he : child.core.error with
        | none => rfl
        | some e => rw [he] at herr; simp at herr
      by_cases hcr : child.core.msg.isCreate
      · simp [EvmC.Computation.addChildComputation, EvmC.returnDataSpec,
          EvmC.Computation.core, herr, hcr, hb]
      · simp [EvmC.Computation.addChildComputation, EvmC.returnDataSpec,
          EvmC.Computation.core, herr, hcr, hb]
  · cases parent with
    | mk core children =>
      simp [EvmC.Computation.addChildComputation, EvmC.Computation.children]

/-! C8: the SHA256 precompile. -/

/-- C8: the precompile computes ceil32 of the message data bytes
themselves rather than of their length, so on every input — the empty
input included — it raises TypeError before charging gas or producing
output, where the claim requires output SHA256(data) at cost
60 + 12 * ceil32(len(data))/32. -/
theorem C8_sha256_precompile_type_error (sha256 : Bytes → Bytes)
    (c : Precompile.Sha256Comp) :
    Precompile.precompiledSha256 sha256 c =
      .error "TypeError: unsupported operand types for %: bytes and int" := by
  rfl

/-! C7: memory extension gas. -/

/-- C7: for u256-range start and size, extend_memory with positive size
charges exactly cost(ceil32(start+size)) - cost(ceil32(len(memory)))
when that difference is positive (given sufficient gas) and nothing
when it is not, where cost is memory_gas_cost; with size zero it
consumes no gas and leaves the whole frame, its memory buffer included,
unchanged. -/
theorem C7_extend_memory_gas (c : EvmC.Computation)
    (startPosition size : Nat)
    (hs : startPosition < 2 ^ 256) (hz : size < 2 ^ 256) :
    (size ≠ 0 →
      EvmC.memoryGasCost (EvmC.ceil32 c.core.memory.length) <
        EvmC.memoryGasCost (EvmC.ceil32 (startPosition + size)) →
      EvmC.memoryGasCost (EvmC.ceil32 (startPosition + size)) -
          EvmC.memoryGasCost (EvmC.ceil32 c.core.memory.length) ≤
        c.core.gasRemaining →
      ∃ c1, c.extendMemory startPosition size = .ok c1 ∧
        c1.core.gasRemaining = c.core.gasRemaining -
          (EvmC.memoryGasCost (EvmC.ceil32 (startPosition + size)) -
           EvmC.memoryGasCost (EvmC.ceil32 c.core.memory.length)))
  ∧ (size ≠ 0 →
      EvmC.memoryGasCost (EvmC.ceil32 (startPosition + size)) ≤
        EvmC.memoryGasCost (EvmC.ceil32 c.core.memory.length) →
      ∃ c1, c.extendMemory startPosition size = .ok c1 ∧
        c1.core.gasRemaining = c.core.gasRemaining)
  ∧ (size = 0 → c.extendMemory startPosition size = .ok c) := by
  have hval : ¬(startPosition ≥ 2 ^ 256 ∨ size ≥ 2 ^ 256) := by omega
  refine ⟨?_, ?_, ?_⟩
  · intro hsz hlt hle
    unfold EvmC.Computation.extendMemory EvmC.consumeGasCore
    rw [if_neg hval, if_pos hsz, if_pos hlt,
      if_neg (by omega :
        ¬(EvmC.memoryGasCost (EvmC.ceil32 (startPosition + size)) -
          EvmC.memoryGasCost (EvmC.ceil32 c.core.memory.length) >
          c.core.gasRemaining))]
    refine ⟨_, rfl, ?_⟩
    simp [EvmC.Computation.core]
  · intro hsz hge
    unfold EvmC.Computation.extendMemory
    rw [if_neg hval, if_pos hsz,
      if_neg (by omega :
        ¬(EvmC.memoryGasCost (EvmC.ceil32 c.core.memory.length) <
          EvmC.memoryGasCost (EvmC.ceil32 (startPosition + size))))]
    refine ⟨_, rfl, ?_⟩
    simp [EvmC.Computation.core]
  · intro hsz
    subst hsz
    unfold EvmC.Computation.extendMemory
    rw [if_neg hval]
    simp

/-- C7 witness: growing an empty memory by one word from a frame with
100 gas, and the size-zero no-op at an arbitrary start position. -/
theorem C7_extend_memory_gas_witness :
    (∃ c1, Fixtures.memComp.extendMemory 0 32 = .ok c1 ∧
      c1.core.gasRemaining = 100 - (EvmC.memoryGasCost (EvmC.ceil32 32) -
        EvmC.memoryGasCost (EvmC.ceil32 0)))
  ∧ Fixtures.memComp.extendMemory 500 0 = .ok Fixtures.memComp := by
  constructor
  · have h := (C7_extend_memory_gas Fixtures.memComp 0 32
      (by decide) (by decide)).1 (by decide) (by decide) (by decide)
    simpa using h
  · exact (C7_extend_memory_gas Fixtures.memComp 500 0
      (by norm_num) (by decide)).2.2 rfl

/-! C3: SSTORE gas, refund and zero-value deletion. -/

/-- C3: for an SSTORE under the Frontier/Homestead schedule with cur
the stored value and new the value written, the gas consumed is 20000
when cur is zero and new nonzero and 5000 in every other case, a 15000
refund is added exactly when cur is nonzero and new zero, and a value
stripping to all-zero bytes removes the slot from the storage trie
instead of storing an explicit zero (so a subsequent read returns empty
bytes). -/
theorem C3_sstore_gas_refund_delete
    (keccak : Bytes → Bytes) (σ : EvmState.State) (c : Logic.SComp)
    (slot value : Bytes) (rest : List Bytes)
    (hstack : c.stack = slot :: value :: rest)
    (hgas : Logic.GAS_SSET ≤ c.gasRemaining)
    (hnd : (((σ.getAccount keccak c.storageAddress).storage).map
      Prod.fst).Nodup) :
    ∃ c2 σ2,
      Logic.sstore keccak σ c = .ok (c2, σ2)
      ∧ c2.gasRemaining = c.gasRemaining -
          (if EvmState.stripZeros
                (σ.get_storage keccak c.storageAddress (Logic.pad32 slot)).1
                = [] ∧ EvmState.stripZeros value ≠ []
           then 20000 else 5000)
      ∧ c2.gasRefunded = c.gasRefunded +
          (if EvmState.stripZeros
                (σ.get_storage keccak c.storageAddress (Logic.pad32 slot)).1
                ≠ [] ∧ EvmState.stripZeros value = []
           then 15000 else 0)
      ∧ σ2 = σ.set_storage keccak c.storageAddress (Logic.pad32 slot) value
      ∧ (EvmState.stripZeros value = [] →
          alget ((σ2.getAccount keccak c.storageAddress).storage)
            (Logic.pad32 slot) = none
          ∧ (σ2.get_storage keccak c.storageAddress (Logic.pad32 slot)).1
            = []) := by
  obtain ⟨st, gr, grf, sa⟩ := c
  simp only at hstack hgas hnd ⊢
  subst hstack
  have hdel : EvmState.stripZeros value = [] →
      alget (((σ.set_storage keccak sa (Logic.pad32 slot)
          value).getAccount keccak sa).storage) (Logic.pad32 slot) = none
      ∧ ((σ.set_storage keccak sa (Logic.pad32 slot)
          value).get_storage keccak sa (Logic.pad32 slot)).1 = [] := by
    intro hz
    have hacct : ((σ.set_storage keccak sa (Logic.pad32 slot)
        value).getAccount keccak sa).storage =
        aldel ((σ.getAccount keccak sa).storage) (Logic.pad32 slot) := by
      simp [EvmState.State.set_storage, hz, EvmState.State.getAccount,
        alget_alset_self]
    have hnone := alget_aldel_self ((σ.getAccount keccak sa).storage)
      (Logic.pad32 slot) hnd
    refine ⟨by rw [hacct]; exact hnone, ?_⟩
    simp only [EvmState.State.get_storage, hacct, hnone]
  have hres : ¬ (Logic.GAS_SRESET > gr) := by
    unfold Logic.GAS_SRESET
    unfold Logic.GAS_SSET at hgas
    omega
  have hset : ¬ (Logic.GAS_SSET > gr) := by omega
  by_cases hce : EvmState.stripZeros
      (σ.get_storage keccak sa (Logic.pad32 slot)).1 = []
  · by_cases hge : EvmState.stripZeros value = []
    · have heq : Logic.sstore keccak σ
          { stack := slot :: value :: rest, gasRemaining := gr,
            gasRefunded := grf, storageAddress := sa } =
          .ok ({ stack := rest, gasRemaining := gr - Logic.GAS_SRESET,
                 gasRefunded := grf, storageAddress := sa },
               σ.set_storage keccak sa (Logic.pad32 slot) value) := by
        unfold Logic.sstore
        simp [hce, hge, hres]
      exact ⟨_, _, heq, by simp [hce, hge, Logic.GAS_SRESET],
        by simp [hce, hge], rfl, hdel⟩
    · have heq : Logic.sstore keccak σ
          { stack := slot :: value :: rest, gasRemaining := gr,
            gasRefunded := grf, storageAddress := sa } =
          .ok ({ stack := rest, gasRemaining := gr - Logic.GAS_SSET,
                 gasRefunded := grf, storageAddress := sa },
               σ.set_storage keccak sa (Logic.pad32 slot) value) := by
        unfold Logic.sstore
        simp [hce, hge, hset]
      exact ⟨_, _, heq, by simp [hce, hge, Logic.GAS_SSET],
        by simp [hce, hge], rfl, hdel⟩
  · by_cases hge : EvmState.stripZeros value = []
    · have heq : Logic.sstore keccak σ
          { stack := slot :: value :: rest, gasRemaining := gr,
            gasRefunded := grf, storageAddress := sa } =
          .ok ({ stack := rest, gasRemaining := gr - Logic.GAS_SRESET,
                 gasRefunded := grf + Logic.REFUND_SCLEAR,
                 storageAddress := sa },
               σ.set_storage keccak sa (Logic.pad32 slot) value) := by
        unfold Logic.sstore
        simp [hce, hge, hres, Logic.REFUND_SCLEAR]
      exact ⟨_, _, heq, by simp [hce, hge, Logic.GAS_SRESET],
        by simp [hce, hge, Logic.REFUND_SCLEAR], rfl, hdel⟩
    · have heq : Logic.sstore keccak σ
          { stack := slot :: value :: rest, gasRemaining := gr,
            gasRefunded := grf, storageAddress := sa } =
          .ok ({ stack := rest, gasRemaining := gr - Logic.GAS_SRESET,
                 gasRefunded := grf, storageAddress := sa },
               σ.set_storage keccak sa (Logic.pad32 slot) value) := by
        unfold Logic.sstore
        simp [hce, hge, hres]
      exact ⟨_, _, heq, by simp [hce, hge, Logic.GAS_SRESET],
        by simp [hce, hge], rfl, hdel⟩

/-- C3 witness: writing 0x05 into the empty slot 0x01 of account 0x03
costs 20000 gas. -/
theorem C3_sstore_gas_refund_delete_witness :
    ∃ c2 σ2, Logic.sstore Fixtures.keccak0 Fixtures.σempty
      Fixtures.sstoreComp = .ok (c2, σ2) ∧ c2.gasRemaining = 10000 := by
  obtain ⟨c2, σ2, h1, h2, _⟩ := C3_sstore_gas_refund_delete Fixtures.keccak0
    Fixtures.σempty Fixtures.sstoreComp [1] [5] [] rfl (by decide) (by decide)
  refine ⟨c2, σ2, h1, ?_⟩
  rw [h2]
  decide

/-! C1: snapshot and revert at frame boundaries. -/

theorem EvmOld.applyMessage_ok_revert (keccak : Bytes → Bytes)
    (ac : EvmOld.Msg → EvmState.State → EvmOld.Comp × EvmState.State)
    (σ : EvmState.State) (message : EvmOld.Msg)
    (computation : EvmOld.Comp) (σ2 : EvmState.State)
    (h : EvmOld.applyMessage keccak ac σ message = .ok (computation, σ2))
    (herr : computation.error.isSome) : σ2 = σ := by
  unfold EvmOld.applyMessage at h
  simp only [] at h
  split at h
  · cases h
  · split at h
    · cases h
    · rename_i σmid hmid
      split at h
      · cases h
        rfl
      · rename_i hnoerr
        cases h
        rename_i hne
        rw [herr] at hnoerr
        simp at hnoerr

theorem EvmOld.applyMessage_raise_revert (keccak : Bytes → Bytes)
    (ac : EvmOld.Msg → EvmState.State → EvmOld.Comp × EvmState.State)
    (σ : EvmState.State) (message : EvmOld.Msg)
    (e : EvmOld.PyErr) (σ2 : EvmState.State)
    (h : EvmOld.applyMessage keccak ac σ message = .error (e, σ2)) :
    σ2 = σ := by
  unfold EvmOld.applyMessage at h
  simp only [] at h
  split at h
  · cases h
    rfl
  · split at h
    · rename_i emid hmid
      cases h
      split at hmid
      · split at hmid
        · cases hmid
          rfl
        · cases hmid
      · cases hmid
    · split at h
      · cases h
      · cases h

theorem EvmOld.applyCreateMessage_ok_revert (keccak : Bytes → Bytes)
    (ac : EvmOld.Msg → EvmState.State → EvmOld.Comp × EvmState.State)
    (σ : EvmState.State) (message : EvmOld.Msg)
    (comp : EvmOld.Comp) (σfin : EvmState.State)
    (h : EvmOld.applyCreateMessage keccak ac σ message = .ok (comp, σfin))
    (herr : comp.error.isSome) :
    σfin = σ ∨ σfin = (if message.sender ≠ message.origin
      then σ.increment_nonce keccak message.sender else σ) := by
  unfold EvmOld.applyCreateMessage at h
  simp only [] at h
  split at h
  · cases h
  · rename_i comp1 σ1 hm
    split at h
    · rename_i hc1
      cases h
      have hrev := EvmOld.applyMessage_ok_revert keccak ac σ message _ _
        hm hc1
      subst hrev
      by_cases hso : message.sender = message.origin
      · left
        simp [hso]
      · right
        simp [hso]
    · rename_i hc1
      repeat' split at h
      all_goals first
        | (cases h; left; rfl)
        | (cases h; simp_all)
        | cases h

theorem EvmOld.applyCreateMessage_raise_revert (keccak : Bytes → Bytes)
    (ac : EvmOld.Msg → EvmState.State → EvmOld.Comp × EvmState.State)
    (σ : EvmState.State) (message : EvmOld.Msg)
    (e : EvmOld.PyErr) (σ2 : EvmState.State)
    (h : EvmOld.applyCreateMessage keccak ac σ message = .error (e, σ2))
    (hnv : e ≠ EvmOld.PyErr.valueError) : σ2 = σ := by
  unfold EvmOld.applyCreateMessage at h
  simp only [] at h
  split at h
  · rename_i emid hm
    cases h
    exact EvmOld.applyMessage_raise_revert keccak ac σ message e σ2 hm
  · rename_i comp1 σ1 hm
    split at h
    · cases h
    · split at h
      · split at h
        · cases h
        · split at h
          · cases h
            exact absurd rfl hnv
          · cases h
      · cases h

theorem EvmOld.applyMessage_success_keeps (keccak : Bytes → Bytes)
    (ac : EvmOld.Msg → EvmState.State → EvmOld.Comp × EvmState.State)
    (σ : EvmState.State) (message : EvmOld.Msg)
    (comp : EvmOld.Comp) (σfin : EvmState.State)
    (hdepth : message.depth < 1024) (hv : message.value = 0)
    (hac : ac message σ = (comp, σfin))
    (herr : comp.error.isSome = false) :
    EvmOld.applyMessage keccak ac σ message = .ok (comp, σfin) := by
  unfold EvmOld.applyMessage
  rw [if_neg (by omega)]
  simp [hv, hac, herr]

theorem EvmOld.applyMessage_success_keeps_transfer (keccak : Bytes → Bytes)
    (ac : EvmOld.Msg → EvmState.State → EvmOld.Comp × EvmState.State)
    (σ : EvmState.State) (message : EvmOld.Msg)
    (comp : EvmOld.Comp) (σfin : EvmState.State)
    (hdepth : message.depth < 1024) (hv : message.value ≠ 0)
    (hbal : ¬ ((σ.get_balance keccak message.sender).1 < message.value))
    (hac : ac message
      ((σ.set_balance keccak message.sender
          ((σ.get_balance keccak message.sender).1 -
            message.value)).set_balance keccak message.storageAddress
        (((σ.set_balance keccak message.sender
            ((σ.get_balance keccak message.sender).1 -
              message.value)).get_balance keccak
          message.storageAddress).1 + message.value)) = (comp, σfin))
    (herr : comp.error.isSome = false) :
    EvmOld.applyMessage keccak ac σ message = .ok (comp, σfin) := by
  unfold EvmOld.applyMessage
  rw [if_neg (by omega)]
  simp only []
  rw [if_pos hv, if_neg hbal]
  simp [hac, herr]

theorem EvmOld.applyCreateMessage_success_keeps (keccak : Bytes → Bytes)
    (ac : EvmOld.Msg → EvmState.State → EvmOld.Comp × EvmState.State)
    (σ : EvmState.State) (message : EvmOld.Msg)
    (comp : EvmOld.Comp) (σfin : EvmState.State)
    (h : EvmOld.applyCreateMessage keccak ac σ message = .ok (comp, σfin))
    (herr : comp.error.isSome = false) :
    ∃ comp1 σ1,
      EvmOld.applyMessage keccak ac σ message = .ok (comp1, σ1)
      ∧ comp1.error.isSome = false
      ∧ (σfin = (if message.sender ≠ message.origin
            then σ1.increment_nonce keccak message.sender else σ1)
         ∨ EvmState.State.set_code keccak
             (if message.sender ≠ message.origin
              then σ1.increment_nonce keccak message.sender else σ1)
             message.storageAddress comp1.output = .ok σfin) := by
  unfold EvmOld.applyCreateMessage at h
  simp only [] at h
  split at h
  · cases h
  · rename_i comp1 σ1 hm
    split at h
    · rename_i hc1
      cases h
      simp_all
    · rename_i hc1
      refine ⟨comp1, σ1, hm, by simp_all, ?_⟩
      repeat' split at h
      all_goals first
        | (cases h; done)
        | (cases h; exact Or.inl rfl)
        | (cases h; rename_i heq; exact Or.inr heq)
        | (cases h; simp_all)

/-- C1 counterexample: a nested create frame (sender 0x01, origin 0x02)
whose init code fails on its first opcode ends in a VM error, yet the
state after the frame differs from the snapshot at entry: the creator
nonce increment performed after the inner message application
survives. -/
theorem C1_frame_revert_counterexample :
    EvmOld.applyCreateMessage Fixtures.keccak0 Fixtures.execFail Fixtures.σ0
        Fixtures.createMsg =
      .ok (⟨some .invalidOpcode, [], 0⟩,
        Fixtures.σ0.increment_nonce Fixtures.keccak0 [1])
    ∧ Fixtures.σ0.increment_nonce Fixtures.keccak0 [1] ≠ Fixtures.σ0 :=
  ⟨rfl, by decide⟩

/-- C1 (amended): a call frame that ends in a VM error — whether
recorded by the interpreter or raised as StackDepthLimit or
InsufficientFunds before it runs — leaves the world state exactly as at
the snapshot taken on entry, for every interpreter behaviour; a create
frame that ends in a VM error restores the snapshot except that when
the creator is not the transaction origin the creator's nonce increment
may survive (and when creator equals origin the snapshot is fully
restored); and on success the modifications are kept: a call frame
returns the interpreter's post-state unreverted (with the value
transfer applied first when the message carries value), and a
successful create frame keeps the inner frame's successful post-state,
extended only by the creator nonce increment and, for nonempty output,
the code installation. -/
theorem C1_frame_error_reverts_amended :
    (∀ (keccak : Bytes → Bytes)
       (ac : EvmOld.Msg → EvmState.State → EvmOld.Comp × EvmState.State)
       (σ : EvmState.State) (message : EvmOld.Msg)
       (comp : EvmOld.Comp) (σfin : EvmState.State),
       EvmOld.applyMessage keccak ac σ message = .ok (comp, σfin) →
       comp.error.isSome → σfin = σ)
  ∧ (∀ (keccak : Bytes → Bytes)
       (ac : EvmOld.Msg → EvmState.State → EvmOld.Comp × EvmState.State)
       (σ : EvmState.State) (message : EvmOld.Msg)
       (e : EvmOld.PyErr) (σfin : EvmState.State),
       EvmOld.applyMessage keccak ac σ message = .error (e, σfin) →
       σfin = σ)
  ∧ (∀ (keccak : Bytes → Bytes)
       (ac : EvmOld.Msg → EvmState.State → EvmOld.Comp × EvmState.State)
       (σ : EvmState.State) (message : EvmOld.Msg)
       (comp : EvmOld.Comp) (σfin : EvmState.State),
       EvmOld.applyCreateMessage keccak ac σ message = .ok (comp, σfin) →
       comp.error.isSome →
       σfin = σ ∨ σfin = σ.increment_nonce keccak message.sender)
  ∧ (∀ (keccak : Bytes → Bytes)
       (ac : EvmOld.Msg → EvmState.State → EvmOld.Comp × EvmState.State)
       (σ : EvmState.State) (message : EvmOld.Msg)
       (comp : EvmOld.Comp) (σfin : EvmState.State),
       EvmOld.applyCreateMessage keccak ac σ message = .ok (comp, σfin) →
       comp.error.isSome → message.sender = message.origin → σfin = σ)
  ∧ (∀ (keccak : Bytes → Bytes)
       (ac : EvmOld.Msg → EvmState.State → EvmOld.Comp × EvmState.State)
       (σ : EvmState.State) (message : EvmOld.Msg)
       (e : EvmOld.PyErr) (σfin : EvmState.State),
       e ≠ EvmOld.PyErr.valueError →
       EvmOld.applyCreateMessage keccak ac σ message = .error (e, σfin) →
       σfin = σ)
  ∧ (∀ (keccak : Bytes → Bytes)
       (ac : EvmOld.Msg → EvmState.State → EvmOld.Comp × EvmState.State)
       (σ : EvmState.State) (message : EvmOld.Msg)
       (comp : EvmOld.Comp) (σfin : EvmState.State),
       message.depth < 1024 → message.value = 0 →
       ac message σ = (comp, σfin) → comp.error.isSome = false →
       EvmOld.applyMessage keccak ac σ message = .ok (comp, σfin))
  ∧ (∀ (keccak : Bytes → Bytes)
       (ac : EvmOld.Msg → EvmState.State → EvmOld.Comp × EvmState.State)
       (σ : EvmState.State) (message : EvmOld.Msg)
       (comp : EvmOld.Comp) (σfin : EvmState.State),
       message.depth < 1024 → message.value ≠ 0 →
       ¬ ((σ.get_balance keccak message.sender).1 < message.value) →
       ac message
         ((σ.set_balance keccak message.sender
             ((σ.get_balance keccak message.sender).1 -
               message.value)).set_balance keccak message.storageAddress
           (((σ.set_balance keccak message.sender
               ((σ.get_balance keccak message.sender).1 -
                 message.value)).get_balance keccak
             message.storageAddress).1 + message.value)) = (comp, σfin) →
       comp.error.isSome = false →
       EvmOld.applyMessage keccak ac σ message = .ok (comp, σfin))
  ∧ (∀ (keccak : Bytes → Bytes)
       (ac : EvmOld.Msg → EvmState.State → EvmOld.Comp × EvmState.State)
       (σ : EvmState.State) (message : EvmOld.Msg)
       (comp : EvmOld.Comp) (σfin : EvmState.State),
       EvmOld.applyCreateMessage keccak ac σ message = .ok (comp, σfin) →
       comp.error.isSome = false →
       ∃ comp1 σ1,
         EvmOld.applyMessage keccak ac σ message = .ok (comp1, σ1)
         ∧ comp1.error.isSome = false
         ∧ (σfin = (if message.sender ≠ message.origin
               then σ1.increment_nonce keccak message.sender else σ1)
            ∨ EvmState.State.set_code keccak
                (if message.sender ≠ message.origin
                 then σ1.increment_nonce keccak message.sender else σ1)
                message.storageAddress comp1.output = .ok σfin)) := by
  refine ⟨?_, ?_, ?_, ?_, ?_, ?_, ?_, ?_⟩
  · intro keccak ac σ message comp σfin h herr
    exact EvmOld.applyMessage_ok_revert keccak ac σ message comp σfin h herr
  · intro keccak ac σ message e σfin h
    exact EvmOld.applyMessage_raise_revert keccak ac σ message e σfin h
  · intro keccak ac σ message comp σfin h herr
    rcases EvmOld.applyCreateMessage_ok_revert keccak ac σ message comp σfin
      h herr with hl | hr
    · exact Or.inl hl
    · by_cases hso : message.sender = message.origin
      · rw [hr, if_neg (by simp [hso])]
        exact Or.inl rfl
      · rw [hr, if_pos hso]
        exact Or.inr rfl
  · intro keccak ac σ message comp σfin h herr hso
    rcases EvmOld.applyCreateMessage_ok_revert keccak ac σ message comp σfin
      h herr with hl | hr
    · exact hl
    · rw [hr, if_neg (by simp [hso])]
  · intro keccak ac σ message e σfin hnv h
    exact EvmOld.applyCreateMessage_raise_revert keccak ac σ message e σfin
      h hnv
  · intro keccak ac σ message comp σfin hdepth hv hac herr
    exact EvmOld.applyMessage_success_keeps keccak ac σ message comp σfin
      hdepth hv hac herr
  · intro keccak ac σ message comp σfin hdepth hv hbal hac herr
    exact EvmOld.applyMessage_success_keeps_transfer keccak ac σ message
      comp σfin hdepth hv hbal hac herr
  · intro keccak ac σ message comp σfin h herr
    exact EvmOld.applyCreateMessage_success_keeps keccak ac σ message
      comp σfin h herr

/-- C1 witness: the amended create-frame error clause applied to the
concrete failing nested create (the surviving-nonce disjunct is the one
realised), and the success clause applied to a valueless call frame
whose interpreter run writes balance 77 to account 0x04: the
modification is kept in the returned state. -/
theorem C1_frame_error_reverts_amended_witness :
    (Fixtures.σ0.increment_nonce Fixtures.keccak0 [1] = Fixtures.σ0 ∨
     Fixtures.σ0.increment_nonce Fixtures.keccak0 [1] =
       Fixtures.σ0.increment_nonce Fixtures.keccak0
         Fixtures.createMsg.sender)
  ∧ EvmOld.applyMessage Fixtures.keccak0 Fixtures.execWrite Fixtures.σ0
      Fixtures.createMsg =
      .ok (⟨none, [], 5⟩,
        Fixtures.σ0.set_balance Fixtures.keccak0 [4] 77) :=
  ⟨C1_frame_error_reverts_amended.2.2.1 Fixtures.keccak0 Fixtures.execFail
    Fixtures.σ0 Fixtures.createMsg ⟨some .invalidOpcode, [], 0⟩
    (Fixtures.σ0.increment_nonce Fixtures.keccak0 [1]) rfl rfl,
   C1_frame_error_reverts_amended.2.2.2.2.2.1 Fixtures.keccak0
    Fixtures.execWrite Fixtures.σ0 Fixtures.createMsg ⟨none, [], 5⟩
    (Fixtures.σ0.set_balance Fixtures.keccak0 [4] 77)
    (by decide) rfl rfl rfl⟩

/-! Unfolding equations and small algebra for the computation tree. -/

theorem EvmC.getAccountsForDeletion_mk (core : EvmC.CompCore)
    (children : List EvmC.Computation) :
    EvmC.Computation.getAccountsForDeletion (.mk core children) =
      if core.error.isSome then []
      else pyDict (core.accountsToDelete ++
        (children.map EvmC.Computation.getAccountsForDeletion).flatten) := by
  rw [EvmC.Computation.getAccountsForDeletion]
  simp [List.attach_map_coe]

theorem EvmC.getGasRefund_mk (core : EvmC.CompCore)
    (children : List EvmC.Computation) :
    EvmC.Computation.getGasRefund (.mk core children) =
      if core.error.isSome then 0
      else core.gasRefunded +
        (children.map EvmC.Computation.getGasRefund).sum := by
  rw [EvmC.Computation.getGasRefund]
  simp [List.attach_map_coe]

theorem EvmC.getLogEntriesInternal_mk (core : EvmC.CompCore)
    (children : List EvmC.Computation) :
    EvmC.Computation.getLogEntriesInternal (.mk core children) =
      if core.error.isSome then []
      else (core.logEntries ++
        (children.map EvmC.Computation.getLogEntriesInternal).flatten).mergeSort
          EvmC.logEntryLe := by
  rw [EvmC.Computation.getLogEntriesInternal]
  simp [List.attach_map_coe]

theorem EvmC.collectLogs_mk (core : EvmC.CompCore)
    (children : List EvmC.Computation) :
    EvmC.Computation.collectLogs (.mk core children) =
      if core.error.isSome then []
      else core.logEntries ++
        (children.map EvmC.Computation.collectLogs).flatten := by
  rw [EvmC.Computation.collectLogs]
  simp [List.attach_map_coe]

theorem EvmC.collectDeletions_mk (core : EvmC.CompCore)
    (children : List EvmC.Computation) :
    EvmC.Computation.collectDeletions (.mk core children) =
      if core.error.isSome then []
      else core.accountsToDelete ++
        (children.map EvmC.Computation.collectDeletions).flatten := by
  rw [EvmC.Computation.collectDeletions]
  simp [List.attach_map_coe]

theorem EvmC.postOrderDeletions_mk (core : EvmC.CompCore)
    (children : List EvmC.Computation) :
    EvmC.Computation.postOrderDeletions (.mk core children) =
      if core.error.isSome then []
      else pyDict ((children.map EvmC.Computation.postOrderDeletions).flatten
        ++ core.accountsToDelete) := by
  rw [EvmC.Computation.postOrderDeletions]
  simp [List.attach_map_coe]

/-- The induction principle matching the recursion of the getters. -/
theorem EvmC.Computation.inductionOn {motive : EvmC.Computation → Prop}
    (h : ∀ core children, (∀ c ∈ children, motive c) →
      motive (.mk core children)) :
    (c : EvmC.Computation) → motive c
  | .mk core children =>
    h core children (fun c _ => EvmC.Computation.inductionOn h c)
termination_by c => sizeOf c
decreasing_by
  simp only [EvmC.Computation.mk.sizeOf_spec]
  rename_i hc
  have := List.sizeOf_lt_of_mem hc
  omega

theorem EvmC.getAccountsForDeletion_of_isError (c : EvmC.Computation)
    (h : c.isError) : c.getAccountsForDeletion = [] := by
  cases c with
  | mk core children =>
    rw [EvmC.getAccountsForDeletion_mk]
    simp only [EvmC.Computation.isError, EvmC.Computation.core] at h
    simp [h]

theorem EvmC.getGasRefund_of_isError (c : EvmC.Computation)
    (h : c.isError) : c.getGasRefund = 0 := by
  cases c with
  | mk core children =>
    rw [EvmC.getGasRefund_mk]
    simp only [EvmC.Computation.isError, EvmC.Computation.core] at h
    simp [h]

theorem EvmC.getAccountsForDeletion_refundGas (c : EvmC.Computation)
    (n : Nat) :
    (c.refundGas n).getAccountsForDeletion = c.getAccountsForDeletion := by
  cases c with
  | mk core children =>
    simp [EvmC.Computation.refundGas, EvmC.Computation.core,
      EvmC.Computation.children, EvmC.getAccountsForDeletion_mk]

theorem EvmC.getGasRemaining_refundGas (c : EvmC.Computation) (n : Nat) :
    (c.refundGas n).getGasRemaining = c.getGasRemaining := by
  cases c with
  | mk core children =>
    simp [EvmC.Computation.refundGas, EvmC.Computation.core,
      EvmC.Computation.getGasRemaining, EvmC.Computation.shouldBurnGas]

theorem EvmC.getGasRefund_refundGas (c : EvmC.Computation) (n : Nat) :
    (c.refundGas n).getGasRefund =
      if c.isError then 0 else c.getGasRefund + n := by
  cases c with
  | mk core children =>
    simp only [EvmC.Computation.refundGas, EvmC.Computation.core,
      EvmC.Computation.children, EvmC.getGasRefund_mk,
      EvmC.Computation.isError]
    by_cases h : core.error.isSome
    · simp [h]
    · simp [h]
      omega

/-! C2: transaction finalisation — refund and fee arithmetic. -/

theorem Frontier.foldl_setBalance_ne (l : List (Addr × Addr))
    (b : Frontier.Balances) (a : Addr) (h : ∀ p ∈ l, p.1 ≠ a) :
    (l.foldl (fun b p => Frontier.setBalance b p.1 0) b) a = b a := by
  induction l generalizing b with
  | nil => rfl
  | cons hd tl ih =>
    simp only [List.foldl_cons]
    rw [ih _ (fun p hp => h p (List.mem_cons_of_mem hd hp))]
    have hne : ¬ (a = hd.1) :=
      fun he => (h hd (List.mem_cons_self hd tl)) he.symm
    simp [Frontier.setBalance, hne]

/-- C2: after executing a transaction the realised refund equals
min(accumulated refund counter + REFUND_SELFDESTRUCT times the number
of accounts registered for deletion, gas_used / 2) with
gas_used = gas_limit - remaining; the sender is credited exactly
(remaining + gas_refund) * gas_price, the coinbase exactly
(gas_limit - remaining - gas_refund) * gas_price, and the realised
refund never exceeds half of gas_used. -/
theorem C2_transaction_refund_and_fees (tx : Frontier.TxInfo)
    (computation : EvmC.Computation) (balances : Frontier.Balances)
    (_hrem : computation.getGasRemaining ≤ tx.gas)
    (hsc : tx.sender ≠ tx.coinbase)
    (hdel : ∀ p ∈ computation.getAccountsForDeletion,
      p.1 ≠ tx.sender ∧ p.1 ≠ tx.coinbase) :
    (Frontier.executeTransactionPost tx computation balances).gasUsed =
      tx.gas -
        (Frontier.executeTransactionPost tx computation balances).gasRemaining
  ∧ (Frontier.executeTransactionPost tx computation balances).gasRefund =
      min (computation.getGasRefund + Frontier.REFUND_SELFDESTRUCT *
            computation.getAccountsForDeletion.length)
        ((Frontier.executeTransactionPost tx computation balances).gasUsed / 2)
  ∧ (Frontier.executeTransactionPost tx computation balances).balances
        tx.sender =
      balances tx.sender +
        ((Frontier.executeTransactionPost tx computation balances).gasRemaining
          + (Frontier.executeTransactionPost tx computation
              balances).gasRefund) * tx.gasPrice
  ∧ (Frontier.executeTransactionPost tx computation balances).balances
        tx.coinbase =
      balances tx.coinbase +
        (tx.gas -
          (Frontier.executeTransactionPost tx computation
            balances).gasRemaining -
          (Frontier.executeTransactionPost tx computation
            balances).gasRefund) * tx.gasPrice
  ∧ 2 * (Frontier.executeTransactionPost tx computation balances).gasRefund ≤
      (Frontier.executeTransactionPost tx computation balances).gasUsed := by
  have hcomp1del : (if computation.getAccountsForDeletion.length ≠ 0 then
      computation.refundGas (Frontier.REFUND_SELFDESTRUCT *
        computation.getAccountsForDeletion.length)
      else computation).getAccountsForDeletion =
      computation.getAccountsForDeletion := by
    split
    · exact EvmC.getAccountsForDeletion_refundGas computation _
    · rfl
  have hcomp1rem : (if computation.getAccountsForDeletion.length ≠ 0 then
      computation.refundGas (Frontier.REFUND_SELFDESTRUCT *
        computation.getAccountsForDeletion.length)
      else computation).getGasRemaining = computation.getGasRemaining := by
    split
    · exact EvmC.getGasRemaining_refundGas computation _
    · rfl
  have hcomp1ref : (if computation.getAccountsForDeletion.length ≠ 0 then
      computation.refundGas (Frontier.REFUND_SELFDESTRUCT *
        computation.getAccountsForDeletion.length)
      else computation).getGasRefund =
      computation.getGasRefund + Frontier.REFUND_SELFDESTRUCT *
        computation.getAccountsForDeletion.length := by
    split
    · rename_i hn
      rw [EvmC.getGasRefund_refundGas]
      by_cases he : computation.isError
      · rw [EvmC.getAccountsForDeletion_of_isError computation he] at hn
        simp at hn
      · simp [he]
    · rename_i hn
      simp at hn
      simp [hn]
  have Hrem : (Frontier.executeTransactionPost tx computation
      balances).gasRemaining = computation.getGasRemaining := by
    unfold Frontier.executeTransactionPost
    simp only []
    exact hcomp1rem
  have Hused : (Frontier.executeTransactionPost tx computation
      balances).gasUsed = tx.gas - computation.getGasRemaining := by
    unfold Frontier.executeTransactionPost
    simp only []
    rw [hcomp1rem]
  have Hrefund : (Frontier.executeTransactionPost tx computation
      balances).gasRefund =
      min (computation.getGasRefund + Frontier.REFUND_SELFDESTRUCT *
        computation.getAccountsForDeletion.length)
        ((tx.gas - computation.getGasRemaining) / 2) := by
    unfold Frontier.executeTransactionPost
    simp only []
    rw [hcomp1ref, hcomp1rem]
  have Hbal : ∀ a, (∀ p ∈ computation.getAccountsForDeletion, p.1 ≠ a) →
      (Frontier.executeTransactionPost tx computation balances).balances a =
      Frontier.deltaBalance
        (if (min (computation.getGasRefund + Frontier.REFUND_SELFDESTRUCT *
               computation.getAccountsForDeletion.length)
               ((tx.gas - computation.getGasRemaining) / 2) +
             computation.getGasRemaining) * tx.gasPrice ≠ 0 then
           Frontier.deltaBalance balances tx.sender
             ((min (computation.getGasRefund + Frontier.REFUND_SELFDESTRUCT *
                computation.getAccountsForDeletion.length)
                ((tx.gas - computation.getGasRemaining) / 2) +
              computation.getGasRemaining) * tx.gasPrice)
         else balances)
        tx.coinbase
        ((tx.gas - computation.getGasRemaining -
          min (computation.getGasRefund + Frontier.REFUND_SELFDESTRUCT *
            computation.getAccountsForDeletion.length)
            ((tx.gas - computation.getGasRemaining) / 2)) * tx.gasPrice)
        a := by
    intro a ha
    unfold Frontier.executeTransactionPost
    simp only []
    rw [hcomp1del, hcomp1rem, hcomp1ref]
    exact Frontier.foldl_setBalance_ne _ _ a ha
  rw [Hused, Hrefund, Hrem]
  refine ⟨rfl, rfl, ?_, ?_, ?_⟩
  · rw [Hbal tx.sender (fun p hp => (hdel p hp).1)]
    rw [show (computation.getGasRemaining +
        min (computation.getGasRefund + Frontier.REFUND_SELFDESTRUCT *
          computation.getAccountsForDeletion.length)
          ((tx.gas - computation.getGasRemaining) / 2)) * tx.gasPrice =
        (min (computation.getGasRefund + Frontier.REFUND_SELFDESTRUCT *
          computation.getAccountsForDeletion.length)
          ((tx.gas - computation.getGasRemaining) / 2) +
         computation.getGasRemaining) * tx.gasPrice from by ring]
    split
    · simp [Frontier.deltaBalance, hsc]
    · rename_i hz
      simp only [ne_eq, Decidable.not_not] at hz
      simp [Frontier.deltaBalance, hsc, hz]
  · rw [Hbal tx.coinbase (fun p hp => (hdel p hp).2)]
    have hcs : ¬ (tx.coinbase = tx.sender) := fun he => hsc he.symm
    split
    · simp [Frontier.deltaBalance, hcs]
    · simp [Frontier.deltaBalance]
  · have := Nat.min_le_right (computation.getGasRefund +
      Frontier.REFUND_SELFDESTRUCT *
        computation.getAccountsForDeletion.length)
      ((tx.gas - computation.getGasRemaining) / 2)
    omega

/-- C2 witness: a completed transaction (gas limit 100000, 50000 gas
left, 100 gas refunded, one self-destruct) credits the sender exactly
(remaining + realised refund) * gas_price. -/
theorem C2_transaction_refund_and_fees_witness :
    (Frontier.executeTransactionPost Fixtures.txInfo Fixtures.txComp
      Fixtures.balances0).balances Fixtures.txInfo.sender =
      Fixtures.balances0 Fixtures.txInfo.sender +
      ((Frontier.executeTransactionPost Fixtures.txInfo Fixtures.txComp
          Fixtures.balances0).gasRemaining +
       (Frontier.executeTransactionPost Fixtures.txInfo Fixtures.txComp
          Fixtures.balances0).gasRefund) * Fixtures.txInfo.gasPrice := by
  have hd : Fixtures.txComp.getAccountsForDeletion = [([5], [6])] := by
    unfold Fixtures.txComp
    rw [EvmC.getAccountsForDeletion_mk]
    rfl
  exact (C2_transaction_refund_and_fees Fixtures.txInfo Fixtures.txComp
    Fixtures.balances0 (by decide) (by decide) (by rw [hd]; decide)).2.2.1

/-! C5: log entries — sortedness, permutation, counter monotonicity. -/

theorem EvmC.logEntryLe_trans (a b c : EvmC.LogEntry)
    (hab : EvmC.logEntryLe a b) (hbc : EvmC.logEntryLe b c) :
    EvmC.logEntryLe a c = true := by
  simp only [EvmC.logEntryLe, decide_eq_true_eq] at hab hbc ⊢
  omega

theorem EvmC.logEntryLe_total (a b : EvmC.LogEntry) :
    (EvmC.logEntryLe a b || EvmC.logEntryLe b a) = true := by
  simp only [EvmC.logEntryLe, Bool.or_eq_true, decide_eq_true_eq]
  omega

theorem flatten_map_perm {α β : Type} (l : List α) (f g : α → List β)
    (h : ∀ x ∈ l, (f x).Perm (g x)) :
    ((l.map f).flatten).Perm ((l.map g).flatten) := by
  induction l with
  | nil => simp
  | cons hd tl ih =>
    simp only [List.map_cons, List.flatten_cons]
    exact (h hd (List.mem_cons_self hd tl)).append
      (ih fun x hx => h x (List.mem_cons_of_mem hd hx))

theorem EvmC.getLogEntriesInternal_sorted (c : EvmC.Computation) :
    List.Pairwise (fun a b : EvmC.LogEntry => a.counter ≤ b.counter)
      c.getLogEntriesInternal := by
  cases c with
  | mk core children =>
    rw [EvmC.getLogEntriesInternal_mk]
    split
    · exact List.Pairwise.nil
    · exact (List.sorted_mergeSort
        (fun a b c => EvmC.logEntryLe_trans a b c)
        EvmC.logEntryLe_total _).imp
        (fun h => by simpa [EvmC.logEntryLe] using h)

theorem EvmC.getLogEntriesInternal_perm (c : EvmC.Computation) :
    c.getLogEntriesInternal.Perm c.collectLogs := by
  induction c using EvmC.Computation.inductionOn with
  | h core children ih =>
    rw [EvmC.getLogEntriesInternal_mk, EvmC.collectLogs_mk]
    split
    · exact List.Perm.refl []
    · exact (List.mergeSort_perm _ _).trans
        ((List.Perm.refl core.logEntries).append
          (flatten_map_perm children _ _ ih))

theorem EvmC.addLogEntries_counters (c : EvmC.Computation)
    (ctx : EvmC.TransactionContext)
    (emissions : List (Addr × List Nat × Bytes)) :
    ((c.addLogEntries ctx emissions).1.core.logEntries).map
        EvmC.LogEntry.counter =
      c.core.logEntries.map EvmC.LogEntry.counter ++
        List.range' ctx.logCounter emissions.length := by
  induction emissions generalizing c ctx with
  | nil => simp [EvmC.Computation.addLogEntries]
  | cons e tl ih =>
    have hstep : EvmC.Computation.addLogEntries c ctx (e :: tl) =
        EvmC.Computation.addLogEntries
          (c.addLogEntry ctx e.1 e.2.1 e.2.2).1
          (c.addLogEntry ctx e.1 e.2.1 e.2.2).2 tl := by
      simp [EvmC.Computation.addLogEntries]
    have hentries : (c.addLogEntry ctx e.1 e.2.1 e.2.2).1.core.logEntries =
        c.core.logEntries ++ [⟨ctx.logCounter, e.1, e.2.1, e.2.2⟩] := by
      cases c with
      | mk core children =>
        simp [EvmC.Computation.addLogEntry,
          EvmC.TransactionContext.getNextLogCounter, EvmC.Computation.core]
    have hctx : (c.addLogEntry ctx e.1 e.2.1 e.2.2).2 =
        ⟨ctx.logCounter + 1⟩ := by
      cases c with
      | mk core children =>
        simp [EvmC.Computation.addLogEntry,
          EvmC.TransactionContext.getNextLogCounter]
    rw [hstep, ih, hentries, hctx]
    simp [List.range'_succ]

/-- C5: get_log_entries is empty for an errored frame; otherwise the
internal getter returns a permutation of the frame's own entries
together with those of all recursively non-errored children, sorted in
ascending order of the per-transaction log counter; and counters are
handed out consecutively by the transaction context, so a frame's
entries carry a strictly increasing counter sequence in emission
order. -/
theorem C5_log_entries_sorted_merge :
    (∀ c : EvmC.Computation, c.isError → c.getLogEntries = [])
  ∧ (∀ c : EvmC.Computation, List.Pairwise
      (fun a b : EvmC.LogEntry => a.counter ≤ b.counter)
      c.getLogEntriesInternal)
  ∧ (∀ c : EvmC.Computation, c.getLogEntriesInternal.Perm c.collectLogs)
  ∧ (∀ (c : EvmC.Computation) (ctx : EvmC.TransactionContext)
       (emissions : List (Addr × List Nat × Bytes)),
       c.core.logEntries = [] →
       List.Pairwise (· < ·)
         (((c.addLogEntries ctx emissions).1.core.logEntries).map
           EvmC.LogEntry.counter)) := by
  refine ⟨?_, EvmC.getLogEntriesInternal_sorted,
    EvmC.getLogEntriesInternal_perm, ?_⟩
  · intro c herr
    cases c with
    | mk core children =>
      simp only [EvmC.Computation.isError, EvmC.Computation.core] at herr
      simp [EvmC.Computation.getLogEntries, EvmC.getLogEntriesInternal_mk,
        herr]
  · intro c ctx emissions hempty
    rw [EvmC.addLogEntries_counters, hempty]
    simpa using List.pairwise_lt_range' ctx.logCounter emissions.length

/-- C5 witness: an errored frame yields no log entries, and two
emissions on a fresh frame carry strictly increasing counters. -/
theorem C5_log_entries_sorted_merge_witness :
    EvmC.Computation.getLogEntries Fixtures.errTree = []
  ∧ List.Pairwise (· < ·)
      ((((EvmC.Computation.mk Fixtures.blankCore []).addLogEntries ⟨0⟩
        [([1], [2], [3]), ([4], [5], [6])]).1.core.logEntries).map
        EvmC.LogEntry.counter) :=
  ⟨C5_log_entries_sorted_merge.1 Fixtures.errTree rfl,
   C5_log_entries_sorted_merge.2.2.2 _ _ _ rfl⟩

/-! C6: accounts for deletion — dict deduplication algebra. -/

theorem alset_cons_self {α β : Type} [DecidableEq α]
    (tl : List (α × β)) (k : α) (v0 v : β) :
    alset ((k, v0) :: tl) k v = (k, v) :: tl := by
  simp [alset]

theorem alset_cons_ne {α β : Type} [DecidableEq α]
    (tl : List (α × β)) (k k0 : α) (v0 v : β) (h : k ≠ k0) :
    alset ((k0, v0) :: tl) k v = (k0, v0) :: alset tl k v := by
  simp [alset, h]

theorem alset_alset_same {α β : Type} [DecidableEq α]
    (l : List (α × β)) (k : α) (v0 v : β) :
    alset (alset l k v0) k v = alset l k v := by
  induction l with
  | nil => simp [alset]
  | cons hd tl ih =>
    obtain ⟨ka, va⟩ := hd
    by_cases h : k = ka
    · subst h
      rw [alset_cons_self, alset_cons_self, alset_cons_self]
    · rw [alset_cons_ne _ _ _ _ _ h, alset_cons_ne _ _ _ _ _ h,
        alset_cons_ne _ _ _ _ _ h, ih]

theorem mem_keys_alset_self {α β : Type} [DecidableEq α]
    (l : List (α × β)) (k : α) (v : β) :
    k ∈ (alset l k v).map Prod.fst := by
  induction l with
  | nil => simp [alset]
  | cons hd tl ih =>
    obtain ⟨ka, va⟩ := hd
    by_cases h : k = ka
    · subst h
      rw [alset_cons_self]
      simp
    · rw [alset_cons_ne _ _ _ _ _ h]
      simp only [List.map_cons, List.mem_cons]
      exact Or.inr ih

theorem mem_keys_alset_mono {α β : Type} [DecidableEq α]
    (l : List (α × β)) (k k1 : α) (v1 : β)
    (h : k ∈ l.map Prod.fst) : k ∈ (alset l k1 v1).map Prod.fst := by
  induction l with
  | nil => simp at h
  | cons hd tl ih =>
    obtain ⟨ka, va⟩ := hd
    simp only [List.map_cons, List.mem_cons] at h
    by_cases h1 : k1 = ka
    · subst h1
      rw [alset_cons_self]
      simp only [List.map_cons, List.mem_cons]
      exact h
    · rw [alset_cons_ne _ _ _ _ _ h1]
      simp only [List.map_cons, List.mem_cons]
      rcases h with h | h
      · exact Or.inl h
      · exact Or.inr (ih h)

theorem keys_alset_subset {α β : Type} [DecidableEq α]
    (l : List (α × β)) (k : α) (v : β) (m : α)
    (hm : m ∈ (alset l k v).map Prod.fst) :
    m = k ∨ m ∈ l.map Prod.fst := by
  induction l with
  | nil =>
    simp [alset] at hm
    exact Or.inl hm
  | cons hd tl ih =>
    obtain ⟨ka, va⟩ := hd
    by_cases h : k = ka
    · subst h
      rw [alset_cons_self] at hm
      simp only [List.map_cons, List.mem_cons] at hm ⊢
      tauto
    · rw [alset_cons_ne _ _ _ _ _ h] at hm
      simp only [List.map_cons, List.mem_cons] at hm ⊢
      rcases hm with hm | hm
      · tauto
      · rcases ih hm with hx | hx
        · tauto
        · tauto

theorem alset_comm_of_mem {α β : Type} [DecidableEq α]
    (l : List (α × β)) (k k1 : α) (v v1 : β)
    (hne : k ≠ k1) (hmem : k ∈ l.map Prod.fst) :
    alset (alset l k v) k1 v1 = alset (alset l k1 v1) k v := by
  induction l with
  | nil => simp at hmem
  | cons hd tl ih =>
    obtain ⟨ka, va⟩ := hd
    simp only [List.map_cons, List.mem_cons] at hmem
    by_cases hka : k = ka
    · subst hka
      have h1a : k1 ≠ k := fun he => hne he.symm
      rw [alset_cons_self, alset_cons_ne _ _ _ _ _ h1a,
        alset_cons_ne _ _ _ _ _ h1a, alset_cons_self]
    · by_cases h1a : k1 = ka
      · subst h1a
        rw [alset_cons_ne _ _ _ _ _ hka, alset_cons_self,
          alset_cons_self, alset_cons_ne _ _ _ _ _ hka]
      · rcases hmem with hm | hm
        · exact absurd hm hka
        · rw [alset_cons_ne _ _ _ _ _ hka, alset_cons_ne _ _ _ _ _ h1a,
            alset_cons_ne _ _ _ _ _ h1a, alset_cons_ne _ _ _ _ _ hka,
            ih hm]

theorem foldl_alset_of_mem {α β : Type} [DecidableEq α]
    (d : List (α × β)) (acc : List (α × β)) (k : α) (v : β)
    (hacc : k ∈ acc.map Prod.fst) (hd : k ∉ d.map Prod.fst) :
    List.foldl (fun acc kv => alset acc kv.1 kv.2) (alset acc k v) d =
      alset (List.foldl (fun acc kv => alset acc kv.1 kv.2) acc d) k v := by
  induction d generalizing acc with
  | nil => rfl
  | cons hd1 tl ih =>
    obtain ⟨k1, v1⟩ := hd1
    simp only [List.map_cons, List.mem_cons, not_or] at hd
    simp only [List.foldl_cons]
    rw [alset_comm_of_mem acc k k1 v v1 hd.1 hacc]
    exact ih (alset acc k1 v1)
      (mem_keys_alset_mono acc k k1 v1 hacc) hd.2

theorem foldl_alset {α β : Type} [DecidableEq α]
    (d : List (α × β)) (acc : List (α × β)) (k : α) (v : β)
    (hnd : (d.map Prod.fst).Nodup) :
    List.foldl (fun acc kv => alset acc kv.1 kv.2) acc (alset d k v) =
      alset (List.foldl (fun acc kv => alset acc kv.1 kv.2) acc d) k v := by
  induction d generalizing acc with
  | nil => rfl
  | cons hd1 tl ih =>
    obtain ⟨k0, v0⟩ := hd1
    simp only [List.map_cons, List.nodup_cons] at hnd
    by_cases hk : k = k0
    · subst hk
      rw [alset_cons_self, List.foldl_cons, List.foldl_cons,
        ← foldl_alset_of_mem tl (alset acc k v0) k v
          (mem_keys_alset_self acc k v0) hnd.1,
        alset_alset_same]
    · rw [alset_cons_ne _ _ _ _ _ hk, List.foldl_cons, List.foldl_cons]
      exact ih (alset acc k0 v0) hnd.2

theorem nodup_keys_alset {α β : Type} [DecidableEq α]
    (l : List (α × β)) (k : α) (v : β)
    (h : (l.map Prod.fst).Nodup) : ((alset l k v).map Prod.fst).Nodup := by
  induction l with
  | nil => simp [alset]
  | cons hd tl ih =>
    obtain ⟨ka, va⟩ := hd
    simp only [List.map_cons, List.nodup_cons] at h
    by_cases hk : k = ka
    · subst hk
      rw [alset_cons_self]
      simp only [List.map_cons, List.nodup_cons]
      exact h
    · rw [alset_cons_ne _ _ _ _ _ hk]
      simp only [List.map_cons, List.nodup_cons]
      refine ⟨?_, ih h.2⟩
      intro hmem
      rcases keys_alset_subset tl k v ka hmem with hx | hx
      · exact hk hx.symm
      · exact h.1 hx

theorem foldl_foldl_alset {α β : Type} [DecidableEq α]
    (ys d acc : List (α × β)) (hnd : (d.map Prod.fst).Nodup) :
    List.foldl (fun acc kv => alset acc kv.1 kv.2) acc
        (List.foldl (fun acc kv => alset acc kv.1 kv.2) d ys) =
      List.foldl (fun acc kv => alset acc kv.1 kv.2) acc (d ++ ys) := by
  induction ys generalizing d acc with
  | nil => simp
  | cons y ys ih =>
    rw [List.foldl_cons, ih (alset d y.1 y.2) acc
      (nodup_keys_alset d y.1 y.2 hnd)]
    rw [List.foldl_append, List.foldl_append, List.foldl_cons]
    rw [foldl_alset d acc y.1 y.2 hnd]

theorem foldl_pyDict {α β : Type} [DecidableEq α]
    (ys acc : List (α × β)) :
    List.foldl (fun acc kv => alset acc kv.1 kv.2) acc (pyDict ys) =
      List.foldl (fun acc kv => alset acc kv.1 kv.2) acc ys := by
  have h := foldl_foldl_alset ys [] acc (by simp)
  simpa [pyDict] using h

theorem nodup_keys_foldl_alset {α β : Type} [DecidableEq α]
    (l acc : List (α × β)) (h : (acc.map Prod.fst).Nodup) :
    ((List.foldl (fun acc kv => alset acc kv.1 kv.2) acc l).map
      Prod.fst).Nodup := by
  induction l generalizing acc with
  | nil => exact h
  | cons hd tl ih =>
    rw [List.foldl_cons]
    exact ih (alset acc hd.1 hd.2) (nodup_keys_alset acc hd.1 hd.2 h)

theorem nodup_keys_pyDict {α β : Type} [DecidableEq α]
    (l : List (α × β)) : ((pyDict l).map Prod.fst).Nodup :=
  nodup_keys_foldl_alset l [] (by simp)

theorem foldl_flatten_pyDict {α β : Type} [DecidableEq α]
    (ls : List (List (α × β))) (acc : List (α × β)) :
    List.foldl (fun acc kv => alset acc kv.1 kv.2) acc
        ((ls.map pyDict).flatten) =
      List.foldl (fun acc kv => alset acc kv.1 kv.2) acc ls.flatten := by
  induction ls generalizing acc with
  | nil => rfl
  | cons hd tl ih =>
    rw [List.map_cons, List.flatten_cons, List.flatten_cons,
      List.foldl_append, List.foldl_append, foldl_pyDict, ih]

theorem pyDict_append {α β : Type} [DecidableEq α]
    (a b : List (α × β)) :
    pyDict (a ++ b) =
      List.foldl (fun acc kv => alset acc kv.1 kv.2) (pyDict a) b := by
  unfold pyDict
  rw [List.foldl_append]

theorem EvmC.getAccountsForDeletion_eq_pyDict_collect
    (c : EvmC.Computation) :
    c.getAccountsForDeletion = pyDict c.collectDeletions := by
  induction c using EvmC.Computation.inductionOn with
  | h core children ih =>
    rw [EvmC.getAccountsForDeletion_mk, EvmC.collectDeletions_mk]
    split
    · rfl
    · rw [List.map_congr_left ih]
      have hmm : List.map
          (fun c => pyDict (EvmC.Computation.collectDeletions c)) children =
          List.map pyDict
            (List.map EvmC.Computation.collectDeletions children) := by
        rw [List.map_map]
        rfl
      rw [hmm, pyDict_append, pyDict_append, foldl_flatten_pyDict]

/-- C6 counterexample: a frame registering account 0x01 with a child
registering 0x02.  get_accounts_for_deletion lists the frame's own
registration first ([0x01, 0x02]), while the post-order flattening the
claim describes lists the children first ([0x02, 0x01]); the two
disagree. -/
theorem C6_deletions_counterexample :
    Fixtures.delTree.getAccountsForDeletion = [([1], [9]), ([2], [8])]
  ∧ Fixtures.delTree.postOrderDeletions = [([2], [8]), ([1], [9])]
  ∧ Fixtures.delTree.getAccountsForDeletion ≠
      Fixtures.delTree.postOrderDeletions := by
  have h1 : Fixtures.delTree.getAccountsForDeletion =
      [([1], [9]), ([2], [8])] := by
    unfold Fixtures.delTree
    simp only [EvmC.getAccountsForDeletion_mk, List.map_cons, List.map_nil,
      List.flatten_cons, List.flatten_nil]
    decide
  have h2 : Fixtures.delTree.postOrderDeletions =
      [([2], [8]), ([1], [9])] := by
    unfold Fixtures.delTree
    simp only [EvmC.postOrderDeletions_mk, List.map_cons, List.map_nil,
      List.flatten_cons, List.flatten_nil]
    decide
  exact ⟨h1, h2, by rw [h1, h2]; decide⟩

/-- C6 (amended): get_accounts_for_deletion returns the empty tuple
whenever the frame errored; otherwise it is the dict deduplication —
first occurrence keeps its position, the last registration's
beneficiary wins — of the flattening that lists the frame's own
(storage_address, beneficiary) registrations first, followed by each
child's recursively collected registrations in order (a pre-order
rather than post-order flattening), and the storage addresses of the
result are pairwise distinct. -/
theorem C6_deletions_preorder_dedup :
    (∀ c : EvmC.Computation, c.isError → c.getAccountsForDeletion = [])
  ∧ (∀ c : EvmC.Computation,
      c.getAccountsForDeletion = pyDict c.collectDeletions)
  ∧ (∀ c : EvmC.Computation,
      ((c.getAccountsForDeletion).map Prod.fst).Nodup) := by
  refine ⟨?_, EvmC.getAccountsForDeletion_eq_pyDict_collect, ?_⟩
  · intro c herr
    exact EvmC.getAccountsForDeletion_of_isError c herr
  · intro c
    rw [EvmC.getAccountsForDeletion_eq_pyDict_collect c]
    exact nodup_keys_pyDict _

/-- C6 witness: an errored frame holding a registration still reports
no accounts for deletion. -/
theorem C6_deletions_preorder_dedup_witness :
    EvmC.Computation.getAccountsForDeletion Fixtures.errTree = [] :=
  C6_deletions_preorder_dedup.1 Fixtures.errTree rfl
